import Mathlib

/-!
# Verification of the serial-bridge core of `src/agent_backend/src/main.py`

This file gives a shallow embedding, over `List Char` and `List Nat` (bytes),
of the bridge loop in `main`: the line framer (`read_buffer` handling), the
JSON codec (`json.loads` / `json.dumps` as used by the bridge), the GUI-tag
classification of handler results, the reply construction, the chunked paced
writer, and the read/recovery step.  Python's `str` is modelled as `List Char`,
bytes as `List Nat`, and the LLM/tool "Handler" as an abstract function from
the task prompt to either a result text or a raised error.

Modelling conventions (deviations from CPython that no theorem depends on):
* `str.lower()` is modelled as ASCII case mapping (the dispatch keywords are
  ASCII);
* `str.strip()` strips the ASCII whitespace characters;
* `json.loads` numbers are restricted to the integers the protocol uses
  (an input with a float/NaN literal is rejected rather than parsed);
* a lone `\uXXXX` surrogate in a JSON string decodes to U+FFFD (Lean `Char`
  cannot hold lone surrogates); the bridge never produces one.
-/

/-! ## Basic characters and strings -/

/-- The characters of a string literal. -/
def strL (s : String) : List Char := s.data

/-- Opening curly brace. -/
def lbrace : Char := Char.ofNat 123

/-- Closing curly brace. -/
def rbrace : Char := Char.ofNat 125

/-- JSON inter-token whitespace, the set skipped by `json.loads`. -/
def isWs (c : Char) : Bool := c = ' ' || c = '\t' || c = '\n' || c = '\r'

/-- Whitespace stripped by Python `str.strip()` (ASCII part). -/
def isPyWs (c : Char) : Bool :=
  c = ' ' || c = '\t' || c = '\n' || c = '\r' || c.toNat = 11 || c.toNat = 12

/-- Drop leading JSON whitespace. -/
def skipWs : List Char → List Char
  | [] => []
  | c :: cs => if isWs c then skipWs cs else c :: cs

/-- `line.strip()`: drop leading and trailing whitespace. -/
def pyStrip (s : List Char) : List Char :=
  ((s.dropWhile isPyWs).reverse.dropWhile isPyWs).reverse

/-- `needle` is a leading segment of `hay` (Python `hay.startswith(needle)`). -/
def leadsOf : List Char → List Char → Bool
  | [], _ => true
  | _ :: _, [] => false
  | a :: as, b :: bs => a = b && leadsOf as bs

/-- `needle` occurs somewhere in `hay` (Python `needle in hay`). -/
def occursIn (needle : List Char) : List Char → Bool
  | [] => leadsOf needle []
  | c :: t => leadsOf needle (c :: t) || occursIn needle t

/-- ASCII lowercase map (model of `str.lower()` on the ASCII range). -/
def lowerChar (c : Char) : Char :=
  if 'A' ≤ c && c ≤ 'Z' then Char.ofNat (c.toNat + 32) else c

/-- Model of `prompt.lower()`. -/
def pyLower (s : List Char) : List Char := s.map lowerChar

/-! ## Line framer (`main.py` lines 62, 76, 98–102)

The bridge keeps one `read_buffer : str`; each successful read appends the
permissively decoded bytes, and the inner loop repeatedly splits off the text
before the first newline, strips it, and skips empty lines. -/

/-- Split a buffer at its first newline: `buf.split('\n', 1)` when a newline
is present. -/
def breakNl : List Char → Option (List Char × List Char)
  | [] => none
  | c :: t =>
    if c = '\n' then some ([], t)
    else (breakNl t).map (fun p => (c :: p.1, p.2))

/-- Fuel-indexed record drain of the `while '\n' in read_buffer` loop:
returns the stripped non-empty lines in order and the leftover buffer. -/
def drainFuel : Nat → List Char → List (List Char) × List Char
  | 0, buf => ([], buf)
  | f + 1, buf =>
    match breakNl buf with
    | none => ([], buf)
    | some (line, rest) =>
      let l := pyStrip line
      let p := drainFuel f rest
      (if l = [] then p.1 else l :: p.1, p.2)

/-- Drain all complete records from the buffer (fuel `buf.length` always
suffices: each extracted line consumes at least its newline). -/
def drain (buf : List Char) : List (List Char) × List Char :=
  drainFuel buf.length buf

/-! ## Permissive UTF-8 decoding (`data.decode('utf-8', errors='ignore')`,
`main.py` line 76)

Invalid bytes and truncated sequences are dropped (CPython skips the maximal
valid subpart of an ill-formed sequence); each read's chunk is decoded
independently, so a multi-byte character split across reads is lost. -/

/-- Decoder state of the byte-at-a-time UTF-8 machine: at a character
boundary, or waiting for `k` more continuation bytes with partial code point
`acc`, the next byte constrained to `[lo, hi]` (the first continuation of a
3/4-byte sequence has a narrowed range; later ones are `80..BF`). -/
inductive U8St where
  | start : U8St
  | need : Nat → Nat → Nat → Nat → U8St

/-- Consume one byte at a character boundary. -/
def u8Start (b : Nat) : U8St × List Char :=
  if b < 0x80 then (.start, [Char.ofNat b])
  else if 0xC2 ≤ b && b ≤ 0xDF then (.need 1 (b - 0xC0) 0x80 0xBF, [])
  else if b = 0xE0 then (.need 2 (b - 0xE0) 0xA0 0xBF, [])
  else if b = 0xED then (.need 2 (b - 0xE0) 0x80 0x9F, [])
  else if 0xE0 ≤ b && b ≤ 0xEF then (.need 2 (b - 0xE0) 0x80 0xBF, [])
  else if b = 0xF0 then (.need 3 (b - 0xF0) 0x90 0xBF, [])
  else if b = 0xF4 then (.need 3 (b - 0xF0) 0x80 0x8F, [])
  else if 0xF0 ≤ b && b ≤ 0xF4 then (.need 3 (b - 0xF0) 0x80 0xBF, [])
  else (.start, [])

/-- Consume one byte: inside a multi-byte sequence, an out-of-range byte
makes CPython drop the maximal subpart read so far and reprocess the byte as
a new start (`errors='ignore'` emits nothing for the dropped part). -/
def u8Step : U8St → Nat → U8St × List Char
  | .start, b => u8Start b
  | .need k acc lo hi, b =>
    if lo ≤ b && b ≤ hi then
      match k with
      | 0 => u8Start b
      | 1 => (.start, [Char.ofNat (acc * 64 + (b - 0x80))])
      | k2 + 2 => (.need (k2 + 1) (acc * 64 + (b - 0x80)) 0x80 0xBF, [])
    else u8Start b

/-- Fold the machine over a byte list, collecting the emitted characters. -/
def u8Fold (p : U8St × List Char) (b : Nat) : U8St × List Char :=
  let r := u8Step p.1 b
  (r.1, p.2 ++ r.2)

/-- `bytes.decode('utf-8', errors='ignore')`: decode what is valid, silently
drop ill-formed or truncated sequences, never fail.  Each read's chunk is
decoded from a fresh state, so a truncated trailing sequence is lost. -/
def utf8DecodeIgnore (bs : List Nat) : List Char := (bs.foldl u8Fold (.start, [])).2

/-- Does the machine accept this byte in this state (no skipping needed)? -/
def u8StepOk (st : U8St) (b : Nat) : Bool :=
  match st with
  | .start =>
    b < 0x80 || (0xC2 ≤ b && b ≤ 0xDF) || (0xE0 ≤ b && b ≤ 0xEF) || (0xF0 ≤ b && b ≤ 0xF4)
  | .need _ _ lo hi => lo ≤ b && b ≤ hi

/-- Machine fold that also records whether any byte was ever skipped. -/
def u8AFold (p : U8St × Bool) (b : Nat) : U8St × Bool :=
  ((u8Step p.1 b).1, p.2 && u8StepOk p.1 b)

/-- Is this state a character boundary? -/
def U8St.atStart : U8St → Bool
  | .start => true
  | .need _ _ _ _ => false

/-- The byte list is well-formed UTF-8: the machine accepts every byte and
ends at a character boundary (so `utf8DecodeIgnore` loses nothing). -/
def utf8ValidB (bs : List Nat) : Bool :=
  let r := bs.foldl u8AFold (U8St.start, true)
  r.2 && r.1.atStart

/-- Feeding one read's bytes to the framer: decode permissively, append to the
pending buffer, drain complete records (`main.py` lines 72–76 and 98–102). -/
def feedBytes (buf : List Char) (bytes : List Nat) : List (List Char) × List Char :=
  drain (buf ++ utf8DecodeIgnore bytes)

/-- Run a whole sequence of reads through the framer, starting from the empty
buffer; returns all records in order and the final pending buffer. -/
def runFeeds (chunks : List (List Nat)) : List (List Char) × List Char :=
  chunks.foldl
    (fun acc bs =>
      let p := feedBytes acc.2 bs
      (acc.1 ++ p.1, p.2))
    ([], [])

/-! ## JSON values (`json.loads` / `json.dumps`, `main.py` lines 104–107 and 305)

The bridge decodes each framed record with `json.loads` and serializes each
reply with `json.dumps` (default options: ASCII-escaping, `', '` / `': '`
separators).  Values are modelled with integer numbers, which is all the
protocol uses; see the module docstring for the documented deviations. -/

/-- A parsed JSON value.  Object member lists keep insertion order, as
`json.loads` does for Python dicts. -/
inductive JsonVal where
  | jnull : JsonVal
  | jbool : Bool → JsonVal
  | jnum : Int → JsonVal
  | jstr : List Char → JsonVal
  | jarr : List JsonVal → JsonVal
  | jobj : List (List Char × JsonVal) → JsonVal

/-- Value of one hex digit, upper or lower case. -/
def hexVal (c : Char) : Option Nat :=
  if 48 ≤ c.toNat && c.toNat ≤ 57 then some (c.toNat - 48)
  else if 97 ≤ c.toNat && c.toNat ≤ 102 then some (c.toNat - 87)
  else if 65 ≤ c.toNat && c.toNat ≤ 70 then some (c.toNat - 55)
  else none

/-- Combine up-to-four hex digit values. -/
def hexJoin (ds : List Nat) : Nat := ds.foldl (fun a d => a * 16 + d) 0

/-- Single-character JSON escapes. -/
def escSimple (c : Char) : Option Char :=
  if c = '"' then some '"'
  else if c = '\\' then some '\\'
  else if c = '/' then some '/'
  else if c = 'b' then some (Char.ofNat 8)
  else if c = 'f' then some (Char.ofNat 12)
  else if c = 'n' then some '\n'
  else if c = 'r' then some '\r'
  else if c = 't' then some '\t'
  else none

/-- U+FFFD, standing in for a lone surrogate (which Lean `Char` cannot hold). -/
def repChar : Char := Char.ofNat 0xFFFD

/-- Scanner state for the JSON string body scanner: inside the string; after a
backslash; collecting `\uXXXX` hex digits; and the three states that look for
the low half of a surrogate pair after a high `\uXXXX` unit, mirroring
CPython's `scanstring`. -/
inductive SScan where
  | normal : SScan
  | esc : SScan
  | hex : List Nat → SScan
  | pairSlash : Nat → SScan
  | pairEsc : Nat → SScan
  | pairHex : Nat → List Nat → SScan

/-- Scan a JSON string body (after the opening quote), one character per step:
returns the decoded content and the input after the closing quote, or `none`
on an unterminated string, bad escape, or raw control character. -/
def parseJSB : SScan → List Char → Option (List Char × List Char)
  | .normal, [] => none
  | .normal, c :: rest =>
    if c = '"' then some ([], rest)
    else if c = '\\' then parseJSB .esc rest
    else if c.toNat < 0x20 then none
    else (parseJSB .normal rest).map (fun p => (c :: p.1, p.2))
  | .esc, [] => none
  | .esc, c :: rest =>
    if c = 'u' then parseJSB (.hex []) rest
    else
      match escSimple c with
      | some ch => (parseJSB .normal rest).map (fun p => (ch :: p.1, p.2))
      | none => none
  | .hex _, [] => none
  | .hex ds, c :: rest =>
    match hexVal c with
    | none => none
    | some v =>
      let ds2 := ds ++ [v]
      if ds2.length = 4 then
        let n := hexJoin ds2
        if 0xD800 ≤ n && n ≤ 0xDBFF then parseJSB (.pairSlash n) rest
        else if 0xDC00 ≤ n && n ≤ 0xDFFF then
          (parseJSB .normal rest).map (fun p => (repChar :: p.1, p.2))
        else (parseJSB .normal rest).map (fun p => (Char.ofNat n :: p.1, p.2))
      else parseJSB (.hex ds2) rest
  | .pairSlash _, [] => none
  | .pairSlash hi, c :: rest =>
    if c = '\\' then parseJSB (.pairEsc hi) rest
    else if c = '"' then some ([repChar], rest)
    else if c.toNat < 0x20 then none
    else (parseJSB .normal rest).map (fun p => (repChar :: c :: p.1, p.2))
  | .pairEsc _, [] => none
  | .pairEsc hi, c :: rest =>
    if c = 'u' then parseJSB (.pairHex hi []) rest
    else
      match escSimple c with
      | some ch => (parseJSB .normal rest).map (fun p => (repChar :: ch :: p.1, p.2))
      | none => none
  | .pairHex _ _, [] => none
  | .pairHex hi ds, c :: rest =>
    match hexVal c with
    | none => none
    | some v =>
      let ds2 := ds ++ [v]
      if ds2.length = 4 then
        let m := hexJoin ds2
        if 0xDC00 ≤ m && m ≤ 0xDFFF then
          (parseJSB .normal rest).map
            (fun p => (Char.ofNat (0x10000 + (hi - 0xD800) * 1024 + (m - 0xDC00)) :: p.1, p.2))
        else if 0xD800 ≤ m && m ≤ 0xDBFF then
          (parseJSB (.pairSlash m) rest).map (fun p => (repChar :: p.1, p.2))
        else (parseJSB .normal rest).map (fun p => (repChar :: Char.ofNat m :: p.1, p.2))
      else parseJSB (.pairHex hi ds2) rest

/-- Parse a JSON string body starting just after the opening quote. -/
def parseJStringBody (s : List Char) : Option (List Char × List Char) :=
  parseJSB .normal s

/-- One decimal digit? -/
def isDigitCh (c : Char) : Bool := 48 ≤ c.toNat && c.toNat ≤ 57

/-- Numeric value of a decimal digit character. -/
def digitVal (c : Char) : Nat := c.toNat - 48

/-- Consume a run of decimal digits, accumulating the value. -/
def parseDigitsAcc (acc : Nat) : List Char → Nat × List Char
  | [] => (acc, [])
  | c :: cs =>
    if isDigitCh c then parseDigitsAcc (acc * 10 + digitVal c) cs
    else (acc, c :: cs)

/-- Unsigned JSON integer: `0`, or a nonzero digit followed by digits. -/
def parseUNum : List Char → Option (Nat × List Char)
  | [] => none
  | c :: cs =>
    if c = '0' then some (0, cs)
    else if isDigitCh c then some (parseDigitsAcc (digitVal c) cs)
    else none

/-- Reject a following fraction/exponent (floats are outside the model). -/
def numGuard (n : Int) (rest : List Char) : Option (JsonVal × List Char) :=
  match rest with
  | [] => some (.jnum n, [])
  | c :: _ =>
    if c = '.' || c = 'e' || c = 'E' then none else some (.jnum n, rest)

/-- Parse a JSON integer, with optional leading minus. -/
def parseNumber : List Char → Option (JsonVal × List Char)
  | [] => none
  | c :: t =>
    if c = '-' then
      match parseUNum t with
      | some (n, rest) => numGuard (-(n : Int)) rest
      | none => none
    else
      match parseUNum (c :: t) with
      | some (n, rest) => numGuard (n : Int) rest
      | none => none

/-- Parser mode: a value, the members of an object (accumulated so far), or
the elements of an array. -/
inductive PMode where
  | val : PMode
  | members : List (List Char × JsonVal) → PMode
  | elems : List JsonVal → PMode

/-- Recursive-descent JSON parser; fuel strictly decreases on every call, and
each call consumes at least one input character, so `length + 16` fuel is
always enough. -/
def parseP : Nat → PMode → List Char → Option (JsonVal × List Char)
  | 0, _, _ => none
  | f + 1, .val, s =>
    match skipWs s with
    | [] => none
    | c :: rest =>
      if c = lbrace then
        match skipWs rest with
        | [] => none
        | c2 :: r2 =>
          if c2 = rbrace then some (.jobj [], r2)
          else parseP f (.members []) (c2 :: r2)
      else if c = '[' then
        match skipWs rest with
        | [] => none
        | c2 :: r2 =>
          if c2 = ']' then some (.jarr [], r2)
          else parseP f (.elems []) (c2 :: r2)
      else if c = '"' then
        match parseJStringBody rest with
        | some p => some (.jstr p.1, p.2)
        | none => none
      else if c = 't' then
        match rest with
        | 'r' :: 'u' :: 'e' :: r => some (.jbool true, r)
        | _ => none
      else if c = 'f' then
        match rest with
        | 'a' :: 'l' :: 's' :: 'e' :: r => some (.jbool false, r)
        | _ => none
      else if c = 'n' then
        match rest with
        | 'u' :: 'l' :: 'l' :: r => some (.jnull, r)
        | _ => none
      else parseNumber (c :: rest)
  | f + 1, .members acc, s =>
    match s with
    | '"' :: rest =>
      match parseJStringBody rest with
      | none => none
      | some (key, r1) =>
        match skipWs r1 with
        | ':' :: r2 =>
          match parseP f .val r2 with
          | none => none
          | some (v, r3) =>
            match skipWs r3 with
            | [] => none
            | c4 :: r4 =>
              if c4 = ',' then parseP f (.members (acc ++ [(key, v)])) (skipWs r4)
              else if c4 = rbrace then some (.jobj (acc ++ [(key, v)]), r4)
              else none
        | _ => none
    | _ => none
  | f + 1, .elems acc, s =>
    match parseP f .val s with
    | none => none
    | some (v, r1) =>
      match skipWs r1 with
      | [] => none
      | c2 :: r2 =>
        if c2 = ',' then parseP f (.elems (acc ++ [v])) r2
        else if c2 = ']' then some (.jarr (acc ++ [v]), r2)
        else none

/-- `json.loads(record)`: parse one JSON value, allowing surrounding
whitespace, rejecting trailing data. -/
def jsonLoads (s : List Char) : Option JsonVal :=
  match parseP (s.length + 16) .val s with
  | none => none
  | some (v, rest) => if skipWs rest = [] then some v else none

/-- `dict.get(k)` on a parsed object: the value of the last member named `k`
(as `json.loads` keeps the last duplicate). -/
def dictGet : List (List Char × JsonVal) → List Char → Option JsonVal
  | [], _ => none
  | (k2, v) :: rest, k =>
    match dictGet rest k with
    | some r => some r
    | none => if k2 = k then some v else none

/-! ## JSON serialization as `json.dumps` performs it (default options) -/

/-- Decimal digit character. -/
def digitCh (n : Nat) : Char := Char.ofNat (48 + n)

/-- Fuel-indexed decimal rendering of a natural number. -/
def natToDigitsF : Nat → Nat → List Char
  | 0, _ => []
  | f + 1, n =>
    if n < 10 then [digitCh n]
    else natToDigitsF f (n / 10) ++ [digitCh (n % 10)]

/-- Decimal digits of a natural number (`n + 1` fuel always suffices). -/
def natToDigits (n : Nat) : List Char := natToDigitsF (n + 1) n

/-- Python `repr` of an int, as emitted by `json.dumps`. -/
def encInt (i : Int) : List Char :=
  if i < 0 then '-' :: natToDigits (-i).toNat else natToDigits i.toNat

/-- Lowercase hex digit, as CPython's `\uXXXX` escapes use. -/
def hexDigitCh (n : Nat) : Char :=
  if n < 10 then Char.ofNat (48 + n) else Char.ofNat (87 + n)

/-- Four-digit lowercase hex rendering. -/
def hex4Enc (n : Nat) : List Char :=
  [hexDigitCh (n / 4096 % 16), hexDigitCh (n / 256 % 16),
   hexDigitCh (n / 16 % 16), hexDigitCh (n % 16)]

/-- `json.dumps` escaping of one character (`ensure_ascii=True`): shorthand
escapes, printable ASCII kept, everything else `\uXXXX`, astral characters as
a surrogate pair. -/
def escChar (c : Char) : List Char :=
  if c = '"' then ['\\', '"']
  else if c = '\\' then ['\\', '\\']
  else if c = '\n' then ['\\', 'n']
  else if c = '\r' then ['\\', 'r']
  else if c = '\t' then ['\\', 't']
  else if c.toNat = 8 then ['\\', 'b']
  else if c.toNat = 12 then ['\\', 'f']
  else if 0x20 ≤ c.toNat && c.toNat ≤ 0x7E then [c]
  else if c.toNat < 0x10000 then '\\' :: 'u' :: hex4Enc c.toNat
  else
    ('\\' :: 'u' :: hex4Enc (0xD800 + (c.toNat - 0x10000) / 1024)) ++
    ('\\' :: 'u' :: hex4Enc (0xDC00 + (c.toNat - 0x10000) % 1024))

/-- `json.dumps` rendering of a string. -/
def encJString (s : List Char) : List Char :=
  '"' :: ((s.map escChar).flatten ++ ['"'])

/-! ## The wire envelope -/

/-- The wire message: `{id: integer, target: string, msg_type: string,
content: string}`. -/
structure Envelope where
  id : Int
  target : List Char
  msgType : List Char
  content : List Char

/-- Key `"id"`. -/
def kId : List Char := strL ("id")

/-- Key `"target"`. -/
def kTarget : List Char := strL ("target")

/-- Key `"msg_type"`. -/
def kMsgType : List Char := strL ("msg_type")

/-- Key `"content"`. -/
def kContent : List Char := strL ("content")

/-- The JSON object of an envelope, in the insertion order of the reply dict
built at `main.py` lines 298–303. -/
def envObj (e : Envelope) : JsonVal :=
  .jobj [(kId, .jnum e.id), (kTarget, .jstr e.target),
         (kMsgType, .jstr e.msgType), (kContent, .jstr e.content)]

/-- `json.dumps` of the envelope's dict (default separators `', '` and
`': '`, insertion order preserved). -/
def encodeEnvBody (e : Envelope) : List Char :=
  [lbrace] ++ encJString kId ++ [':', ' '] ++ encInt e.id ++
  [',', ' '] ++ encJString kTarget ++ [':', ' '] ++ encJString e.target ++
  [',', ' '] ++ encJString kMsgType ++ [':', ' '] ++ encJString e.msgType ++
  [',', ' '] ++ encJString kContent ++ [':', ' '] ++ encJString e.content ++
  [rbrace]

/-- `json.dumps(reply) + "\n"` (`main.py` line 305). -/
def encodeEnv (e : Envelope) : List Char := encodeEnvBody e ++ ['\n']

example : drain (strL ("a\nbc\nd")) = ([strL ("a"), strL ("bc")], strL ("d")) := by
  decide

example : utf8DecodeIgnore [0xC3, 0xA9, 0x0A] = [Char.ofNat 0xE9, '\n'] := by decide

example : utf8DecodeIgnore [0xC3] = [] := by decide

example : (runFeeds [[0xC3], [0xA9], [0x0A]]).1 = [] := by decide

example : (runFeeds [[0xC3, 0xA9, 0x0A]]).1 = [[Char.ofNat 0xE9]] := by decide

example : jsonLoads (strL ("42")) = some (.jnum 42) := rfl

example : jsonLoads (strL ("\x7b\"a\": 1\x7d")) =
    some (.jobj [(strL ("a"), .jnum 1)]) := rfl

example : jsonLoads (strL ("not json")) = none := rfl

example :
    jsonLoads (encodeEnvBody ⟨42, strL ("shell"), strL ("response"), strL ("ok")⟩) =
      some (envObj ⟨42, strL ("shell"), strL ("response"), strL ("ok")⟩) := rfl

example :
    jsonLoads (encodeEnvBody ⟨-7, strL ("shell"), strL ("x"), strL ("a\nb\\c\"d")⟩) =
      some (envObj ⟨-7, strL ("shell"), strL ("x"), strL ("a\nb\\c\"d")⟩) := rfl

example :
    jsonLoads (encodeEnvBody ⟨0, [], [Char.ofNat 0x1F600, Char.ofNat 0xE9], []⟩) =
      some (envObj ⟨0, [], [Char.ofNat 0x1F600, Char.ofNat 0xE9], []⟩) := rfl

/-! ## GUI-tag classification of handler results (`main.py` lines 250–296)

The reply defaults to `msg_type = "response"` with the raw result as content;
four regexes of the form `TAG(\{.*\})` (DOTALL) are then tried in order
pipeline-diagram, ML-dashboard, plot, chess, each replacing the content with
the brace-delimited group; if none matched, `startswith` fallbacks strip the
plot, pipeline and ML-dashboard tags (there is no chess fallback).  The
duplicated `elif chess_match` branch at lines 279–282 repeats the same
condition and is unreachable. -/

/-- Tag `"GUI_PIPELINE_DIAGRAM:"`. -/
def tagPIPE : List Char := strL ("GUI_PIPELINE_DIAGRAM:")

/-- Tag `"GUI_ML_DASHBOARD:"`. -/
def tagML : List Char := strL ("GUI_ML_DASHBOARD:")

/-- Tag `"GUI_PLOT:"`. -/
def tagPLOT : List Char := strL ("GUI_PLOT:")

/-- Tag `"GUI_CHESS:"`. -/
def tagCHESS : List Char := strL ("GUI_CHESS:")

/-- Longest leading segment of `s` that ends in a closing brace (what the
greedy `.*\}` keeps after the opening brace). -/
def upToLastRbrace : List Char → Option (List Char)
  | [] => none
  | c :: t =>
    match upToLastRbrace t with
    | some p => some (c :: p)
    | none => if c = rbrace then some [c] else none

/-- Model of `re.search(tag + r'(\{.*\})', resp, re.DOTALL)`: the leftmost
occurrence of the tag followed directly by an opening brace with at least one
closing brace after it; the group runs from that opening brace to the last
closing brace of the string. -/
def reTagSearch (tag : List Char) : List Char → Option (List Char)
  | [] => none
  | c :: t =>
    if leadsOf (tag ++ [lbrace]) (c :: t) then
      match upToLastRbrace ((c :: t).drop (tag.length + 1)) with
      | some p => some (lbrace :: p)
      | none => reTagSearch tag t
    else reTagSearch tag t

/-- Outbound `msg_type` `"response"`. -/
def vResponse : List Char := strL ("response")

/-- Classify a handler result into `(msg_type, content)` exactly as
`main.py` lines 250–296 do. -/
def classify (resp : List Char) : List Char × List Char :=
  match reTagSearch tagPIPE resp with
  | some p => (strL ("gui_pipeline_diagram"), p)
  | none =>
    match reTagSearch tagML resp with
    | some p => (strL ("gui_ml_dashboard"), p)
    | none =>
      match reTagSearch tagPLOT resp with
      | some p => (strL ("gui_plot"), p)
      | none =>
        match reTagSearch tagCHESS resp with
        | some p => (strL ("gui_chess"), p)
        | none =>
          if leadsOf tagPLOT resp then (strL ("gui_plot"), resp.drop 9)
          else if leadsOf tagPIPE resp then (strL ("gui_pipeline_diagram"), resp.drop 21)
          else if leadsOf tagML resp then (strL ("gui_ml_dashboard"), resp.drop 17)
          else (vResponse, resp)

/-! ## Task dispatch (`main.py` lines 111–248)

The keyword tests at lines 120–155 route some prompts directly to a tool with
no surrounding `try`, so an exception there propagates and kills the loop;
the agent-graph branch (lines 156–246) catches every exception and turns it
into an `"Agent Error: ..."` result.  The Handler (tool or agent graph) is
abstracted as a function from the prompt to a result or a raised error. -/

/-- The operator strings the calculator branch scans for in the raw prompt. -/
def calcOps : List (List Char) :=
  [strL ("+"), strL ("-"), strL ("*"), strL ("/"), strL ("^"),
   strL ("sqrt"), strL ("sin"), strL ("cos")]

/-- The `if/elif` keyword chain at lines 120–155: does the prompt route to a
direct tool call (plot, calculator, chess, psychology test, music)? -/
def isDirectDispatch (prompt : List Char) : Bool :=
  let pl := pyLower prompt
  (occursIn (strL ("plot")) pl &&
    (occursIn (strL ("=")) pl || occursIn (strL ("sin")) pl || occursIn (strL ("cos")) pl)) ||
  (occursIn (strL ("calculate")) pl ||
    (occursIn (strL ("what is")) pl && calcOps.any (fun op => occursIn op prompt))) ||
  (occursIn (strL ("chess")) pl || occursIn (strL ("chess battle")) pl) ||
  (occursIn (strL ("agent test")) pl || occursIn (strL ("psych test")) pl ||
    occursIn (strL ("psychology test")) pl) ||
  (occursIn (strL ("music")) pl ||
    (occursIn (strL ("play")) pl && !occursIn (strL ("chess")) pl))

/-- What the abstract Handler does on a prompt: return a result text, or
raise an error. -/
inductive HandlerOut where
  | ok : List Char → HandlerOut
  | err : List Char → HandlerOut

/-- Run the task dispatch: direct branches propagate a raised error (`none` =
uncaught exception), the graph branch converts it to `"Agent Error: ..."`,
and with no graph the fixed text is returned. -/
def dispatchTask (graphAvail : Bool) (h : List Char → HandlerOut) (prompt : List Char) :
    Option (List Char) :=
  if isDirectDispatch prompt then
    match h prompt with
    | .ok s => some s
    | .err _ => none
  else if graphAvail then
    match h prompt with
    | .ok s => some s
    | .err e => some (strL ("Agent Error: ") ++ e)
  else some (strL ("Agent not initialized"))

/-- Inbound `msg_type` value `"task"`. -/
def vTask : List Char := strL ("task")

/-- The fixed reply target `"shell"`. -/
def vShell : List Char := strL ("shell")

/-- The reply object of `main.py` lines 298–303: the request's `id` value
echoed (JSON `null` when absent), target `"shell"`, and the classified
`msg_type` / content. -/
def mkReply (reqId : Option JsonVal) (mt ct : List Char) : JsonVal :=
  .jobj [(kId, reqId.getD .jnull), (kTarget, .jstr vShell),
         (kMsgType, .jstr mt), (kContent, .jstr ct)]

/-- Outcome of processing one framed record: envelopes sent, or an uncaught
exception terminating the loop. -/
inductive StepRes where
  | emit : List JsonVal → StepRes
  | crash : StepRes

/-- Process one framed record (`main.py` lines 104–326): JSON-decode (a
failure is skipped), call `.get` on the result (a non-object raises), and for
`msg_type == "task"` dispatch the prompt and build the classified reply. -/
def recordStep (g : Bool) (h : List Char → HandlerOut) (r : List Char) : StepRes :=
  match jsonLoads r with
  | none => .emit []
  | some (.jobj kvs) =>
    match dictGet kvs kMsgType with
    | some (.jstr mt) =>
      if mt = vTask then
        match (dictGet kvs kContent).getD (.jstr []) with
        | .jstr prompt =>
          match dispatchTask g h prompt with
          | some resp => .emit [mkReply (dictGet kvs kId) (classify resp).1 (classify resp).2]
          | none => .crash
        | _ => .crash
      else .emit []
    | _ => .emit []
  | some _ => .crash

/-- Result of running the record loop over a list of framed records: the
replies handed to the paced writer, and whether an uncaught exception
terminated the loop (dropping the remaining records). -/
inductive LoopOut where
  | ok : List JsonVal → LoopOut
  | crashed : List JsonVal → LoopOut

/-- Did the loop die? -/
def LoopOut.isCrash : LoopOut → Bool
  | .ok _ => false
  | .crashed _ => true

/-- The replies that were sent. -/
def LoopOut.sent : LoopOut → List JsonVal
  | .ok es => es
  | .crashed es => es

/-- Run the inner record loop over the drained records in order. -/
def runRecords (g : Bool) (h : List Char → HandlerOut) : List (List Char) → LoopOut
  | [] => .ok []
  | r :: rs =>
    match recordStep g h r with
    | .crash => .crashed []
    | .emit es =>
      match runRecords g h rs with
      | .ok more => .ok (es ++ more)
      | .crashed more => .crashed (es ++ more)

/-! ## Paced chunked writer (`main.py` lines 305–326)

`resp_str` is cut into 32-character slices; each slice is written with up to
3 attempts (10 ms sleep after each blocked attempt), a blocked-out slice is
silently skipped, and a fixed 20 ms sleep follows every slice. -/

/-- Observable events of one paced send: a successful `os.write` of a chunk,
the silent fall-through after all of a chunk's attempts blocked (the code
does nothing and proceeds), and a `time.sleep` in milliseconds. -/
inductive SendEv where
  | wrote : List Char → SendEv
  | exhausted : List Char → SendEv
  | slept : Nat → SendEv

/-- Fuel-indexed 32-character slicing (`resp_str[i:i+32]`). -/
def chunksOfF : Nat → List Char → List (List Char)
  | 0, _ => []
  | _ + 1, [] => []
  | f + 1, c :: t => (c :: t.take 31) :: chunksOfF f (t.drop 31)

/-- The 32-character slices of the record text, in order. -/
def chunks32 (s : List Char) : List (List Char) := chunksOfF s.length s

/-- The retry loop for one chunk (`retries = 3; while retries > 0`): `ok a`
says whether the `os.write` at attempt `a` succeeds; a blocked attempt sleeps
10 ms and decrements the retry budget. -/
def tryWrite (ok : Nat → Bool) (ch : List Char) : Nat → Nat → List SendEv × Bool
  | _, 0 => ([], false)
  | a, r + 1 =>
    if ok a then ([SendEv.wrote ch], true)
    else
      let p := tryWrite ok ch (a + 1) r
      (SendEv.slept 10 :: p.1, p.2)

/-- One iteration of the chunk loop: the retried write, then the fixed 20 ms
inter-chunk sleep. -/
def sendChunk (ok : Nat → Bool) (ch : List Char) : List SendEv :=
  let p := tryWrite ok ch 0 3
  (if p.2 then p.1 else p.1 ++ [SendEv.exhausted ch]) ++ [SendEv.slept 20]

/-- The chunk loop from chunk index `i` on; `oracle i a` is the channel's
answer to attempt `a` on chunk `i`. -/
def sendLoop (oracle : Nat → Nat → Bool) : Nat → List (List Char) → List SendEv
  | _, [] => []
  | i, ch :: rest => sendChunk (oracle i) ch ++ sendLoop oracle (i + 1) rest

/-- The full paced send of one record text. -/
def sendPaced (oracle : Nat → Nat → Bool) (s : List Char) : List SendEv :=
  sendLoop oracle 0 (chunks32 s)

/-- UTF-8 byte size of one character (`chunk.encode('utf-8')`). -/
def charUtf8Size (c : Char) : Nat :=
  if c.toNat < 0x80 then 1
  else if c.toNat < 0x800 then 2
  else if c.toNat < 0x10000 then 3
  else 4

/-- UTF-8 byte length of a text. -/
def utf8Len (s : List Char) : Nat := (s.map charUtf8Size).sum

/-- A channel that accepts every write attempt at once. -/
def oracleReady : Nat → Nat → Bool := fun _ _ => true

/-! ## The read / recovery step (`main.py` lines 70–96)

One poll of the channel: data is decoded and appended to the pending buffer;
`BlockingIOError` / `EAGAIN` is ignored; `EIO` sleeps two seconds, re-checks
the device path, and exits the loop only when the path is gone; any other
`OSError` is re-raised and ends the loop. -/

/-- The bridge loop state the recovery logic touches: the framer's pending
buffer and whether the loop has terminated. -/
structure BridgeSt where
  buf : List Char
  closed : Bool

/-- What one non-blocking read attempt can yield. -/
inductive ChanEv where
  | bytes : List Nat → ChanEv
  | wouldBlock : ChanEv
  | disconnected : Bool → ChanEv
  | otherError : ChanEv

/-- Operator-visible actions of the recovery path. -/
inductive LoopAct where
  | slept : Nat → LoopAct
  | checkedPath : LoopAct
  | exited : LoopAct

/-- One read poll of the bridge loop.  For `disconnected pathStillExists` the
loop sleeps 2000 ms, re-checks the device path, and either resumes with the
buffer untouched or terminates. -/
def readStep (st : BridgeSt) (ev : ChanEv) : BridgeSt × List LoopAct :=
  match ev with
  | .bytes bs => ({ st with buf := st.buf ++ utf8DecodeIgnore bs }, [])
  | .wouldBlock => (st, [])
  | .disconnected ex =>
    if ex then (st, [.slept 2000, .checkedPath])
    else ({ st with closed := true }, [.slept 2000, .checkedPath, .exited])
  | .otherError => ({ st with closed := true }, [.exited])

example : classify (strL ("GUI_PLOT:\x7b\"a\":1\x7d")) =
    (strL ("gui_plot"), strL ("\x7b\"a\":1\x7d")) := rfl

example : classify (strL ("GUI_CHESS:hello")) = (vResponse, strL ("GUI_CHESS:hello")) := rfl

example : classify (strL ("GUI_CHESS:\x7b\"m\":1\x7d")) =
    (strL ("gui_chess"), strL ("\x7b\"m\":1\x7d")) := rfl

example : classify (strL ("ok")) = (vResponse, strL ("ok")) := rfl

example : classify (strL ("GUI_PLOT:\x7b\x7d tail")) = (strL ("gui_plot"), strL ("\x7b\x7d")) := rfl

example :
    recordStep true (fun _ => .ok (strL ("ok")))
      (strL ("\x7b\"id\": 42, \"target\": \"kernel\", \"msg_type\": \"task\", \"content\": \"hi\"\x7d")) =
    .emit [mkReply (some (.jnum 42)) vResponse (strL ("ok"))] := rfl

example :
    runRecords true (fun _ => .ok (strL ("ok"))) [strL ("42"), strL ("\x7b\"msg_type\": \"task\"\x7d")] =
    .crashed [] := rfl

example : isDirectDispatch (strL ("plot y = x")) = true := rfl

example : isDirectDispatch (strL ("tell me a story")) = false := rfl

/-! # Lemmas

## The framer: `breakNl` and `drain` -/

theorem breakNl_shorter :
    ∀ {s l r : List Char}, breakNl s = some (l, r) → r.length < s.length := by
  intro s
  induction s with
  | nil => intro l r h; simp [breakNl] at h
  | cons c t ih =>
    intro l r h
    by_cases hc : c = '\n'
    · simp [breakNl, hc] at h
      obtain ⟨h1, h2⟩ := h
      subst h2; simp
    · simp only [breakNl, if_neg hc, Option.map_eq_some'] at h
      obtain ⟨p, hp, he⟩ := h
      have := ih (l := p.1) (r := p.2) (by rw [hp])
      have h2 : r = p.2 := by
        have := congrArg Prod.snd he
        simpa using this.symm
      subst h2
      simp
      omega

theorem drainFuel_nil : ∀ f, drainFuel f [] = ([], []) := by
  intro f
  cases f with
  | zero => rfl
  | succ g => simp [drainFuel, breakNl]

theorem drainFuel_irrel :
    ∀ f g (buf : List Char), buf.length ≤ f → buf.length ≤ g →
      drainFuel f buf = drainFuel g buf := by
  intro f
  induction f with
  | zero =>
    intro g buf hf _
    have : buf = [] := by
      cases buf with
      | nil => rfl
      | cons c t => simp at hf
    subst this
    rw [drainFuel_nil, drainFuel_nil]
  | succ f ih =>
    intro g buf hf hg
    cases g with
    | zero =>
      have : buf = [] := by
        cases buf with
        | nil => rfl
        | cons c t => simp at hg
      subst this
      rw [drainFuel_nil, drainFuel_nil]
    | succ g =>
      simp only [drainFuel]
      cases hb : breakNl buf with
      | none => rfl
      | some p =>
        obtain ⟨l1, r1⟩ := p
        have hlen := breakNl_shorter (s := buf) (l := l1) (r := r1) hb
        dsimp only
        rw [ih g r1 (by omega) (by omega)]

/-- The defining one-step equation of `drain`, free of fuel. -/
theorem drain_eq (buf : List Char) :
    drain buf =
      match breakNl buf with
      | none => ([], buf)
      | some (line, rest) =>
        let l := pyStrip line
        let p := drain rest
        (if l = [] then p.1 else l :: p.1, p.2) := by
  show drainFuel buf.length buf = _
  cases hl : buf.length with
  | zero =>
    have : buf = [] := by cases buf <;> simp_all
    subst this
    simp [drainFuel_nil, breakNl]
  | succ n =>
    simp only [drainFuel]
    cases hb : breakNl buf with
    | none => rfl
    | some p =>
      obtain ⟨l1, r1⟩ := p
      have hlen := breakNl_shorter (s := buf) (l := l1) (r := r1) hb
      dsimp only
      rw [show drain r1 = drainFuel n r1 from
        drainFuel_irrel r1.length n r1 (by omega) (by omega)]

/-! ## UTF-8 machine lemmas -/

theorem u8fold_hom :
    ∀ (a : List Nat) (st : U8St) (cs : List Char),
      a.foldl u8Fold (st, cs) =
        ((a.foldl u8Fold (st, [])).1, cs ++ (a.foldl u8Fold (st, [])).2) := by
  intro a
  induction a with
  | nil => intro st cs; simp
  | cons b t ih =>
    intro st cs
    simp only [List.foldl_cons]
    have hb : u8Fold (st, cs) b = ((u8Step st b).1, cs ++ (u8Step st b).2) := rfl
    have hb0 : u8Fold (st, []) b = ((u8Step st b).1, (u8Step st b).2) := by
      simp [u8Fold]
    rw [hb, hb0, ih (u8Step st b).1 (cs ++ (u8Step st b).2), ih (u8Step st b).1 (u8Step st b).2]
    simp

theorem u8fold_state_ind (t : List Nat) (st : U8St) (cs : List Char) :
    (t.foldl u8Fold (st, cs)).1 = (t.foldl u8Fold (st, [])).1 := by
  rw [u8fold_hom t st cs]

theorem u8state_afold :
    ∀ (a : List Nat) (st : U8St) (cs : List Char) (ok : Bool),
      (a.foldl u8Fold (st, cs)).1 = (a.foldl u8AFold (st, ok)).1 := by
  intro a
  induction a with
  | nil => intro st cs ok; rfl
  | cons b t ih =>
    intro st cs ok
    simp only [List.foldl_cons]
    exact ih (u8Step st b).1 (cs ++ (u8Step st b).2) (ok && u8StepOk st b)

theorem u8fold_valid_state (a : List Nat) (hv : utf8ValidB a = true) :
    (a.foldl u8Fold (U8St.start, [])).1 = U8St.start := by
  unfold utf8ValidB at hv
  rw [Bool.and_eq_true] at hv
  rw [u8state_afold a U8St.start [] true]
  cases hst : (a.foldl u8AFold (U8St.start, true)).1 with
  | start => rfl
  | need k acc lo hi =>
    rw [hst] at hv
    simp [U8St.atStart] at hv

theorem utf8_decode_append (a b : List Nat) (hv : utf8ValidB a = true) :
    utf8DecodeIgnore (a ++ b) = utf8DecodeIgnore a ++ utf8DecodeIgnore b := by
  show ((a ++ b).foldl u8Fold (U8St.start, [])).2 = _
  rw [List.foldl_append]
  have h1 : a.foldl u8Fold (U8St.start, []) = (U8St.start, utf8DecodeIgnore a) := by
    have hs := u8fold_valid_state a hv
    have h2 : a.foldl u8Fold (U8St.start, []) =
        ((a.foldl u8Fold (U8St.start, [])).1, (a.foldl u8Fold (U8St.start, [])).2) := rfl
    rw [h2, hs]
    rfl
  rw [h1, u8fold_hom b U8St.start (utf8DecodeIgnore a)]
  rfl

theorem utf8_decode_flatten :
    ∀ (chunks : List (List Nat)), (∀ c ∈ chunks, utf8ValidB c = true) →
      utf8DecodeIgnore chunks.flatten = (chunks.map utf8DecodeIgnore).flatten := by
  intro chunks
  induction chunks with
  | nil => intro _; rfl
  | cons c cs ih =>
    intro h
    simp only [List.flatten_cons, List.map_cons]
    rw [utf8_decode_append c cs.flatten (h c (by simp))]
    rw [ih (fun x hx => h x (by simp [hx]))]

theorem breakNl_append_some :
    ∀ {t l r : List Char} (u : List Char),
      breakNl t = some (l, r) → breakNl (t ++ u) = some (l, r ++ u) := by
  intro t
  induction t with
  | nil => intro l r u h; simp [breakNl] at h
  | cons c t2 ih =>
    intro l r u h
    by_cases hc : c = '\n'
    · simp only [breakNl, if_pos hc, Option.some.injEq, Prod.mk.injEq] at h
      obtain ⟨hl, hr⟩ := h
      subst hl
      subst hr
      simp [breakNl, if_pos hc]
    · simp only [breakNl, if_neg hc, Option.map_eq_some'] at h
      obtain ⟨p, hp, he⟩ := h
      have h2 := congrArg Prod.fst he
      have h3 := congrArg Prod.snd he
      simp at h2 h3
      subst h2
      subst h3
      simp only [List.cons_append, breakNl, if_neg hc, List.append_eq]
      rw [ih u hp]
      rfl

theorem drain_rest :
    ∀ (buf : List Char), breakNl (drain buf).2 = none := by
  have aux : ∀ (n : Nat) (buf : List Char), buf.length ≤ n → breakNl (drain buf).2 = none := by
    intro n
    induction n with
    | zero =>
      intro buf h
      have : buf = [] := by cases buf <;> simp_all
      subst this
      rfl
    | succ n ih =>
      intro buf h
      rw [drain_eq buf]
      cases hb : breakNl buf with
      | none => exact hb
      | some p =>
        obtain ⟨l, r⟩ := p
        have := breakNl_shorter hb
        dsimp only
        exact ih r (by omega)
  intro buf
  exact aux buf.length buf le_rfl

theorem drain_carry :
    ∀ (t u : List Char),
      drain (t ++ u) =
        ((drain t).1 ++ (drain ((drain t).2 ++ u)).1, (drain ((drain t).2 ++ u)).2) := by
  have aux : ∀ (n : Nat) (t u : List Char), t.length ≤ n →
      drain (t ++ u) =
        ((drain t).1 ++ (drain ((drain t).2 ++ u)).1, (drain ((drain t).2 ++ u)).2) := by
    intro n
    induction n with
    | zero =>
      intro t u h
      have : t = [] := by cases t <;> simp_all
      subst this
      simp [show drain ([] : List Char) = ([], []) from rfl]
    | succ n ih =>
      intro t u h
      cases hb : breakNl t with
      | none =>
        have hdt : drain t = ([], t) := by rw [drain_eq, hb]
        rw [hdt]
        simp
      | some p =>
        obtain ⟨l, r⟩ := p
        have hlen := breakNl_shorter hb
        have hbu : breakNl (t ++ u) = some (l, r ++ u) := breakNl_append_some u hb
        rw [drain_eq (t ++ u), hbu, drain_eq t, hb]
        dsimp only
        rw [ih r u (by omega)]
        by_cases hl : pyStrip l = []
        · simp [hl]
        · simp [hl]
  intro t u
  exact aux t.length t u le_rfl

theorem runFeeds_general :
    ∀ (chunks : List (List Nat)) (recs : List (List Char)) (buf : List Char),
      breakNl buf = none →
      chunks.foldl
        (fun acc bs =>
          let p := feedBytes acc.2 bs
          (acc.1 ++ p.1, p.2)) (recs, buf) =
        (recs ++ (drain (buf ++ (chunks.map utf8DecodeIgnore).flatten)).1,
         (drain (buf ++ (chunks.map utf8DecodeIgnore).flatten)).2) := by
  intro chunks
  induction chunks with
  | nil =>
    intro recs buf hnl
    have hd : drain buf = ([], buf) := by rw [drain_eq, hnl]
    simp [hd]
  | cons c cs ih =>
    intro recs buf hnl
    simp only [List.foldl_cons, List.map_cons, List.flatten_cons]
    rw [ih (recs ++ (feedBytes buf c).1) (feedBytes buf c).2 (drain_rest _)]
    have hassoc : buf ++ (utf8DecodeIgnore c ++ (cs.map utf8DecodeIgnore).flatten) =
        (buf ++ utf8DecodeIgnore c) ++ (cs.map utf8DecodeIgnore).flatten := by simp
    rw [hassoc, drain_carry (buf ++ utf8DecodeIgnore c) ((cs.map utf8DecodeIgnore).flatten)]
    show (recs ++ (drain (buf ++ utf8DecodeIgnore c)).1 ++ _, _) = _
    simp [feedBytes, List.append_assoc]

/-! ## Character and digit lemmas -/

theorem charToNat_ofNat {n : Nat} (h : n.isValidChar) : (Char.ofNat n).toNat = n := by
  unfold Char.ofNat
  rw [dif_pos h]
  unfold Char.ofNatAux
  simp [Char.toNat, UInt32.toNat, UInt32.ofNat']

theorem char_ne_of_toNat {c d : Char} (h : c.toNat ≠ d.toNat) : c ≠ d := by
  intro he
  exact h (congrArg Char.toNat he)

theorem isDigitCh_digitCh (n : Nat) (h : n < 10) : isDigitCh (digitCh n) = true := by
  interval_cases n <;> rfl

theorem digitVal_digitCh (n : Nat) (h : n < 10) : digitVal (digitCh n) = n := by
  interval_cases n <;> rfl

theorem hexVal_hexDigitCh (d : Nat) (h : d < 16) : hexVal (hexDigitCh d) = some d := by
  interval_cases d <;> rfl

/-! ## Decimal rendering round-trip -/

theorem natToDigitsF_irrel :
    ∀ (f g n : Nat), n < f → n < g → natToDigitsF f n = natToDigitsF g n := by
  intro f
  induction f with
  | zero => intro g n hf; omega
  | succ f ih =>
    intro g n hf hg
    cases g with
    | zero => omega
    | succ g =>
      simp only [natToDigitsF]
      by_cases h10 : n < 10
      · simp [h10]
      · simp only [if_neg h10]
        rw [ih g (n / 10) (by omega) (by omega)]

theorem natToDigits_eq (n : Nat) :
    natToDigits n =
      if n < 10 then [digitCh n] else natToDigits (n / 10) ++ [digitCh (n % 10)] := by
  show natToDigitsF (n + 1) n = _
  rw [show natToDigitsF (n + 1) n = if n < 10 then [digitCh n]
      else natToDigitsF n (n / 10) ++ [digitCh (n % 10)] from rfl]
  by_cases h : n < 10
  · simp [h]
  · simp only [if_neg h]
    rw [natToDigitsF_irrel n (n / 10 + 1) (n / 10) (by omega) (by omega)]
    rfl

theorem natToDigits_all_digit :
    ∀ (n : Nat), ∀ c ∈ natToDigits n, isDigitCh c = true := by
  have aux : ∀ (m n : Nat), n ≤ m → ∀ c ∈ natToDigits n, isDigitCh c = true := by
    intro m
    induction m with
    | zero =>
      intro n hn c hc
      have : n = 0 := by omega
      subst this
      simp [natToDigits_eq] at hc
      subst hc
      exact isDigitCh_digitCh 0 (by omega)
    | succ m ih =>
      intro n hn c hc
      rw [natToDigits_eq] at hc
      by_cases h10 : n < 10
      · simp [h10] at hc
        subst hc
        exact isDigitCh_digitCh n h10
      · simp only [if_neg h10, List.mem_append, List.mem_singleton] at hc
        rcases hc with hc | hc
        · exact ih (n / 10) (by omega) c hc
        · subst hc
          exact isDigitCh_digitCh (n % 10) (by omega)
  intro n
  exact aux n n le_rfl

theorem natToDigits_head_pos :
    ∀ (n : Nat), n ≠ 0 → ∃ c cs, natToDigits n = c :: cs ∧ c ≠ '0' ∧ isDigitCh c = true := by
  have aux : ∀ (m n : Nat), n ≤ m → n ≠ 0 →
      ∃ c cs, natToDigits n = c :: cs ∧ c ≠ '0' ∧ isDigitCh c = true := by
    intro m
    induction m with
    | zero => intro n hn h0; omega
    | succ m ih =>
      intro n hn h0
      rw [natToDigits_eq]
      by_cases h10 : n < 10
      · refine ⟨digitCh n, [], by simp [h10], ?_, isDigitCh_digitCh n h10⟩
        have : 1 ≤ n := by omega
        interval_cases n <;> decide
      · obtain ⟨c, cs, hc, hne, hd⟩ := ih (n / 10) (by omega) (by omega)
        refine ⟨c, cs ++ [digitCh (n % 10)], ?_, hne, hd⟩
        simp [h10, hc]
  intro n
  exact aux n n le_rfl

/-- Consuming a run of digit characters accumulates with the fold. -/
theorem parseDigitsAcc_run :
    ∀ (ds : List Char), (∀ c ∈ ds, isDigitCh c = true) → ∀ (acc : Nat) (rest : List Char),
      parseDigitsAcc acc (ds ++ rest) =
        parseDigitsAcc (ds.foldl (fun a c => a * 10 + digitVal c) acc) rest := by
  intro ds
  induction ds with
  | nil => intro _ acc rest; rfl
  | cons c cs ih =>
    intro h acc rest
    have hc : isDigitCh c = true := h c (by simp)
    simp only [List.cons_append, parseDigitsAcc, if_pos hc, List.foldl_cons]
    exact ih (fun x hx => h x (by simp [hx])) (acc * 10 + digitVal c) rest

/-- The parser stops at a non-digit. -/
theorem parseDigitsAcc_stop (acc : Nat) :
    ∀ (rest : List Char), (∀ c ∈ rest.take 1, isDigitCh c = false) →
      parseDigitsAcc acc rest = (acc, rest) := by
  intro rest h
  cases rest with
  | nil => rfl
  | cons c t =>
    have hc : isDigitCh c = false := h c (by simp)
    simp [parseDigitsAcc, hc]

theorem foldl_natToDigits :
    ∀ (n : Nat) (acc : Nat),
      (natToDigits n).foldl (fun a c => a * 10 + digitVal c) acc =
        acc * 10 ^ (natToDigits n).length + n := by
  have aux : ∀ (m n acc : Nat), n ≤ m →
      (natToDigits n).foldl (fun a c => a * 10 + digitVal c) acc =
        acc * 10 ^ (natToDigits n).length + n := by
    intro m
    induction m with
    | zero =>
      intro n acc hn
      have : n = 0 := by omega
      subst this
      rw [natToDigits_eq]
      norm_num
      rfl
    | succ m ih =>
      intro n acc hn
      rw [natToDigits_eq]
      by_cases h10 : n < 10
      · simp [h10, digitVal_digitCh n h10]
      · simp only [if_neg h10, List.foldl_append, List.foldl_cons, List.foldl_nil,
          List.length_append, List.length_singleton]
        rw [ih (n / 10) acc (by omega)]
        rw [digitVal_digitCh (n % 10) (by omega)]
        calc (acc * 10 ^ (natToDigits (n / 10)).length + n / 10) * 10 + n % 10
            = acc * (10 ^ (natToDigits (n / 10)).length * 10) + (n / 10 * 10 + n % 10) := by
              ring
          _ = acc * 10 ^ ((natToDigits (n / 10)).length + 1) + n := by
              rw [pow_succ]
              congr 1
              omega
  intro n acc
  exact aux n n acc le_rfl

theorem natToDigits_head :
    ∀ (n : Nat), ∃ c cs, natToDigits n = c :: cs ∧ isDigitCh c = true ∧
      (c = '0' → n = 0) := by
  intro n
  by_cases h0 : n = 0
  · subst h0
    exact ⟨'0', [], rfl, rfl, fun _ => rfl⟩
  · obtain ⟨c, cs, hc, hne, hd⟩ := natToDigits_head_pos n h0
    exact ⟨c, cs, hc, hd, fun h => absurd h hne⟩

theorem parseUNum_natToDigits (n : Nat) (rest : List Char)
    (h : ∀ c ∈ rest.take 1, isDigitCh c = false) :
    parseUNum (natToDigits n ++ rest) = some (n, rest) := by
  by_cases h0 : n = 0
  · subst h0
    rw [show natToDigits 0 = ['0'] from rfl]
    simp [parseUNum]
  · obtain ⟨c, cs, hc, hne, hd⟩ := natToDigits_head_pos n h0
    have hdigits : ∀ x ∈ cs, isDigitCh x = true := by
      intro x hx
      exact natToDigits_all_digit n x (by rw [hc]; simp [hx])
    rw [hc]
    simp only [List.cons_append, parseUNum, if_neg hne, hd, if_pos]
    rw [parseDigitsAcc_run cs hdigits (digitVal c) rest, parseDigitsAcc_stop _ rest h]
    have hfold : cs.foldl (fun a c => a * 10 + digitVal c) (digitVal c) = n := by
      have h1 : (natToDigits n).foldl (fun a c => a * 10 + digitVal c) 0 = n := by
        rw [foldl_natToDigits n 0]
        simp
      rw [hc, List.foldl_cons] at h1
      simpa using h1
    rw [hfold]

theorem numGuard_pass (n : Int) (rest : List Char)
    (h : ∀ c ∈ rest.take 1, c ≠ '.' ∧ c ≠ 'e' ∧ c ≠ 'E') :
    numGuard n rest = some (.jnum n, rest) := by
  cases rest with
  | nil => rfl
  | cons c t =>
    have hc := h c (by simp)
    simp [numGuard, hc.1, hc.2.1, hc.2.2]

theorem parseNumber_encInt (i : Int) (rest : List Char)
    (h : ∀ c ∈ rest.take 1, isDigitCh c = false ∧ c ≠ '.' ∧ c ≠ 'e' ∧ c ≠ 'E') :
    parseNumber (encInt i ++ rest) = some (.jnum i, rest) := by
  unfold encInt
  by_cases hneg : i < 0
  · simp only [if_pos hneg, List.cons_append, parseNumber, if_pos]
    rw [parseUNum_natToDigits (-i).toNat rest (fun c hc => (h c hc).1)]
    dsimp only
    have he : -(((-i).toNat : Nat) : Int) = i := by omega
    rw [he]
    exact numGuard_pass i rest (fun c hc => (h c hc).2)
  · simp only [if_neg hneg]
    obtain ⟨c, cs, hc, hd, _⟩ := natToDigits_head i.toNat
    rw [hc]
    have hnm : c ≠ '-' := by
      intro he
      subst he
      simp [isDigitCh] at hd
    simp only [List.cons_append, parseNumber, if_neg hnm]
    rw [← List.cons_append, ← hc]
    rw [parseUNum_natToDigits i.toNat rest (fun x hx => (h x hx).1)]
    dsimp only
    have he : ((i.toNat : Nat) : Int) = i := by omega
    rw [he]
    exact numGuard_pass i rest (fun x hx => (h x hx).2)

/-! ## JSON string escaping round-trip -/

theorem char_valid_nat (c : Char) :
    c.toNat < 0xD800 ∨ (0xE000 ≤ c.toNat ∧ c.toNat < 0x110000) := by
  have h := c.valid
  unfold UInt32.isValidChar at h
  unfold Nat.isValidChar at h
  exact h

theorem hexJoin_quad (n : Nat) :
    hexJoin [n / 4096 % 16, n / 256 % 16, n / 16 % 16, n % 16] = n % 65536 := by
  simp only [hexJoin, List.foldl_cons, List.foldl_nil]
  omega

theorem parseJSB_hexrun (n : Nat) (hn : n < 0x10000) (rest : List Char) :
    parseJSB (.hex []) (hex4Enc n ++ rest) =
      (if 0xD800 ≤ n && n ≤ 0xDBFF then parseJSB (.pairSlash n) rest
       else if 0xDC00 ≤ n && n ≤ 0xDFFF then
         (parseJSB .normal rest).map (fun p => (repChar :: p.1, p.2))
       else (parseJSB .normal rest).map (fun p => (Char.ofNat n :: p.1, p.2))) := by
  have h1 : n / 4096 % 16 < 16 := Nat.mod_lt _ (by omega)
  have h2 : n / 256 % 16 < 16 := Nat.mod_lt _ (by omega)
  have h3 : n / 16 % 16 < 16 := Nat.mod_lt _ (by omega)
  have h4 : n % 16 < 16 := Nat.mod_lt _ (by omega)
  have hj : hexJoin [n / 4096 % 16, n / 256 % 16, n / 16 % 16, n % 16] = n := by
    rw [hexJoin_quad]
    omega
  show parseJSB (.hex []) (hexDigitCh (n / 4096 % 16) :: hexDigitCh (n / 256 % 16) ::
      hexDigitCh (n / 16 % 16) :: hexDigitCh (n % 16) :: rest) = _
  simp only [parseJSB, hexVal_hexDigitCh _ h1, hexVal_hexDigitCh _ h2,
    hexVal_hexDigitCh _ h3, hexVal_hexDigitCh _ h4, List.nil_append, List.cons_append,
    List.length_cons, List.length_nil, List.length_singleton]
  norm_num
  rw [hj]

theorem parseJSB_pairhexrun (hi m : Nat) (hm : m < 0x10000) (rest : List Char) :
    parseJSB (.pairHex hi []) (hex4Enc m ++ rest) =
      (if 0xDC00 ≤ m && m ≤ 0xDFFF then
        (parseJSB .normal rest).map
          (fun p => (Char.ofNat (0x10000 + (hi - 0xD800) * 1024 + (m - 0xDC00)) :: p.1, p.2))
       else if 0xD800 ≤ m && m ≤ 0xDBFF then
        (parseJSB (.pairSlash m) rest).map (fun p => (repChar :: p.1, p.2))
       else (parseJSB .normal rest).map (fun p => (repChar :: Char.ofNat m :: p.1, p.2))) := by
  have h1 : m / 4096 % 16 < 16 := Nat.mod_lt _ (by omega)
  have h2 : m / 256 % 16 < 16 := Nat.mod_lt _ (by omega)
  have h3 : m / 16 % 16 < 16 := Nat.mod_lt _ (by omega)
  have h4 : m % 16 < 16 := Nat.mod_lt _ (by omega)
  have hj : hexJoin [m / 4096 % 16, m / 256 % 16, m / 16 % 16, m % 16] = m := by
    rw [hexJoin_quad]
    omega
  show parseJSB (.pairHex hi []) (hexDigitCh (m / 4096 % 16) :: hexDigitCh (m / 256 % 16) ::
      hexDigitCh (m / 16 % 16) :: hexDigitCh (m % 16) :: rest) = _
  simp only [parseJSB, hexVal_hexDigitCh _ h1, hexVal_hexDigitCh _ h2,
    hexVal_hexDigitCh _ h3, hexVal_hexDigitCh _ h4, List.nil_append, List.cons_append,
    List.length_cons, List.length_nil, List.length_singleton]
  norm_num
  rw [hj]

theorem parseJSB_u_step (x : List Char) :
    parseJSB .normal ('\\' :: 'u' :: x) = parseJSB (.hex []) x := by
  simp [parseJSB]

theorem parseJSB_pair_u_step (hi : Nat) (x : List Char) :
    parseJSB (.pairSlash hi) ('\\' :: 'u' :: x) = parseJSB (.pairHex hi []) x := by
  simp [parseJSB]

theorem parseJSB_escChar (c : Char) (t : List Char) :
    parseJSB .normal (escChar c ++ t) =
      (parseJSB .normal t).map (fun p => (c :: p.1, p.2)) := by
  by_cases h1 : c = '"'
  · subst h1
    show parseJSB .normal ('\\' :: '"' :: t) = _
    simp [parseJSB, escSimple]
  · by_cases h2 : c = '\\'
    · subst h2
      show parseJSB .normal ('\\' :: '\\' :: t) = _
      simp [parseJSB, escSimple]
    · by_cases h3 : c = '\n'
      · subst h3
        show parseJSB .normal ('\\' :: 'n' :: t) = _
        simp [parseJSB, escSimple]
      · by_cases h4 : c = '\r'
        · subst h4
          show parseJSB .normal ('\\' :: 'r' :: t) = _
          simp [parseJSB, escSimple]
        · by_cases h5 : c = '\t'
          · subst h5
            show parseJSB .normal ('\\' :: 't' :: t) = _
            simp [parseJSB, escSimple]
          · by_cases h6 : c.toNat = 8
            · have hc : Char.ofNat 8 = c := by rw [← h6, Char.ofNat_toNat]
              unfold escChar
              rw [if_neg h1, if_neg h2, if_neg h3, if_neg h4, if_neg h5, if_pos h6]
              show parseJSB .normal ('\\' :: 'b' :: t) = _
              show (parseJSB .normal t).map (fun p => (Char.ofNat 8 :: p.1, p.2)) = _
              rw [hc]
            · by_cases h7 : c.toNat = 12
              · have hc : Char.ofNat 12 = c := by rw [← h7, Char.ofNat_toNat]
                unfold escChar
                rw [if_neg h1, if_neg h2, if_neg h3, if_neg h4, if_neg h5, if_neg h6,
                  if_pos h7]
                show parseJSB .normal ('\\' :: 'f' :: t) = _
                show (parseJSB .normal t).map (fun p => (Char.ofNat 12 :: p.1, p.2)) = _
                rw [hc]
              · by_cases h8 : (0x20 ≤ c.toNat && c.toNat ≤ 0x7E) = true
                · unfold escChar
                  rw [if_neg h1, if_neg h2, if_neg h3, if_neg h4, if_neg h5, if_neg h6,
                    if_neg h7, if_pos h8]
                  simp only [Bool.and_eq_true, decide_eq_true_eq] at h8
                  show parseJSB .normal (c :: t) = _
                  simp only [parseJSB, if_neg h1, if_neg h2]
                  rw [if_neg (by omega : ¬c.toNat < 0x20)]
                · by_cases h9 : c.toNat < 0x10000
                  · unfold escChar
                    rw [if_neg h1, if_neg h2, if_neg h3, if_neg h4, if_neg h5, if_neg h6,
                      if_neg h7, if_neg h8, if_pos h9]
                    show parseJSB .normal ('\\' :: 'u' :: (hex4Enc c.toNat ++ t)) = _
                    rw [parseJSB_u_step]
                    rw [parseJSB_hexrun c.toNat h9 t]
                    have hval := char_valid_nat c
                    rw [if_neg (by simp; omega), if_neg (by simp; omega),
                      Char.ofNat_toNat]
                  · unfold escChar
                    rw [if_neg h1, if_neg h2, if_neg h3, if_neg h4, if_neg h5, if_neg h6,
                      if_neg h7, if_neg h8, if_neg h9]
                    have hval := char_valid_nat c
                    have hv1 : 0x10000 ≤ c.toNat := by omega
                    have hv2 : c.toNat < 0x110000 := by
                      rcases hval with h | h
                      · omega
                      · exact h.2
                    show parseJSB .normal
                      ((('\\' :: 'u' :: hex4Enc (0xD800 + (c.toNat - 0x10000) / 1024)) ++
                        ('\\' :: 'u' :: hex4Enc (0xDC00 + (c.toNat - 0x10000) % 1024))) ++ t) = _
                    simp only [List.cons_append, List.append_assoc]
                    rw [parseJSB_u_step]
                    rw [parseJSB_hexrun (0xD800 + (c.toNat - 0x10000) / 1024) (by omega)]
                    rw [if_pos (by simp; omega)]
                    rw [parseJSB_pair_u_step]
                    rw [parseJSB_pairhexrun _ (0xDC00 + (c.toNat - 0x10000) % 1024) (by omega) t]
                    rw [if_pos (by simp; omega)]
                    have harith : 0x10000 +
                        ((0xD800 + (c.toNat - 0x10000) / 1024) - 0xD800) * 1024 +
                        ((0xDC00 + (c.toNat - 0x10000) % 1024) - 0xDC00) = c.toNat := by
                      omega
                    rw [harith, Char.ofNat_toNat]

theorem parseJSB_enc :
    ∀ (s rest : List Char),
      parseJSB .normal ((s.map escChar).flatten ++ '"' :: rest) = some (s, rest) := by
  intro s
  induction s with
  | nil =>
    intro rest
    show parseJSB .normal ('"' :: rest) = _
    simp [parseJSB]
  | cons c cs ih =>
    intro rest
    simp only [List.map_cons, List.flatten_cons, List.append_assoc]
    rw [parseJSB_escChar, ih rest]
    rfl

theorem parseJStringBody_enc (s rest : List Char) :
    parseJStringBody ((s.map escChar).flatten ++ '"' :: rest) = some (s, rest) :=
  parseJSB_enc s rest

/-! ## Parsing the serialized envelope -/

theorem skipWs_not_ws {c : Char} (t : List Char) (h : isWs c = false) :
    skipWs (c :: t) = c :: t := by
  simp [skipWs, h]

theorem skipWs_space (t : List Char) : skipWs (' ' :: t) = skipWs t := by
  simp [skipWs, isWs]

theorem digit_ne_delims (c : Char) (h : isDigitCh c = true) :
    c ≠ lbrace ∧ c ≠ '[' ∧ c ≠ '"' ∧ c ≠ 't' ∧ c ≠ 'f' ∧ c ≠ 'n' ∧ c ≠ '-' ∧
      isWs c = false := by
  simp only [isDigitCh, Bool.and_eq_true, decide_eq_true_eq] at h
  refine ⟨char_ne_of_toNat (by rw [show lbrace.toNat = 123 from rfl]; omega),
    char_ne_of_toNat (by rw [show ('[').toNat = 91 from rfl]; omega),
    char_ne_of_toNat (by rw [show ('"').toNat = 34 from rfl]; omega),
    char_ne_of_toNat (by rw [show ('t').toNat = 116 from rfl]; omega),
    char_ne_of_toNat (by rw [show ('f').toNat = 102 from rfl]; omega),
    char_ne_of_toNat (by rw [show ('n').toNat = 110 from rfl]; omega),
    char_ne_of_toNat (by rw [show ('-').toNat = 45 from rfl]; omega), ?_⟩
  have w1 : c ≠ ' ' := char_ne_of_toNat (by rw [show (' ').toNat = 32 from rfl]; omega)
  have w2 : c ≠ '\t' := char_ne_of_toNat (by rw [show ('\t').toNat = 9 from rfl]; omega)
  have w3 : c ≠ '\n' := char_ne_of_toNat (by rw [show ('\n').toNat = 10 from rfl]; omega)
  have w4 : c ≠ '\r' := char_ne_of_toNat (by rw [show ('\r').toNat = 13 from rfl]; omega)
  simp [isWs, w1, w2, w3, w4]

theorem parseP_val_jstr (g : Nat) (strv after : List Char) :
    parseP (g + 1) .val (' ' :: (encJString strv ++ after)) = some (.jstr strv, after) := by
  have hshape : encJString strv ++ after =
      '"' :: ((strv.map escChar).flatten ++ ('"' :: after)) := by
    simp [encJString]
  simp only [parseP]
  rw [skipWs_space, hshape, skipWs_not_ws _ (by rfl)]
  dsimp only
  rw [if_neg (show ¬('"' = lbrace) from by decide), if_neg (show ¬('"' = '[') from by decide),
    if_pos rfl]
  rw [show parseJStringBody ((strv.map escChar).flatten ++ ('"' :: after)) =
      some (strv, after) from parseJSB_enc strv after]

theorem parseP_val_jnum (g : Nat) (i : Int) (after : List Char)
    (h : ∀ c ∈ after.take 1, isDigitCh c = false ∧ c ≠ '.' ∧ c ≠ 'e' ∧ c ≠ 'E') :
    parseP (g + 1) .val (' ' :: (encInt i ++ after)) = some (.jnum i, after) := by
  simp only [parseP]
  rw [skipWs_space]
  by_cases hneg : i < 0
  · have hshape : encInt i ++ after = '-' :: (natToDigits (-i).toNat ++ after) := by
      simp [encInt, hneg]
    rw [hshape, skipWs_not_ws _ (by rfl)]
    dsimp only
    rw [if_neg (show ¬('-' = lbrace) from by decide), if_neg (show ¬('-' = '[') from by decide),
      if_neg (show ¬('-' = '"') from by decide), if_neg (show ¬('-' = 't') from by decide),
      if_neg (show ¬('-' = 'f') from by decide), if_neg (show ¬('-' = 'n') from by decide)]
    rw [show ('-' :: (natToDigits (-i).toNat ++ after)) = encInt i ++ after from hshape.symm]
    exact parseNumber_encInt i after h
  · have h0 : encInt i = natToDigits i.toNat := by simp [encInt, hneg]
    obtain ⟨c, cs, hc, hd, _⟩ := natToDigits_head i.toNat
    obtain ⟨d1, d2, d3, d4, d5, d6, d7, dws⟩ := digit_ne_delims c hd
    have hshape : encInt i ++ after = c :: (cs ++ after) := by
      rw [h0, hc]
      simp
    rw [hshape, skipWs_not_ws _ dws]
    dsimp only
    rw [if_neg d1, if_neg d2, if_neg d3, if_neg d4, if_neg d5, if_neg d6]
    rw [show (c :: (cs ++ after)) = encInt i ++ after from hshape.symm]
    exact parseNumber_encInt i after h

theorem parseP_member_step (g : Nat) (acc : List (List Char × JsonVal)) (key : List Char)
    (vrest after : List Char) (v : JsonVal)
    (hval : parseP g .val (' ' :: vrest) = some (v, after)) :
    parseP (g + 1) (.members acc) (encJString key ++ (':' :: ' ' :: vrest)) =
      (match skipWs after with
       | [] => none
       | c4 :: r4 =>
         if c4 = ',' then parseP g (.members (acc ++ [(key, v)])) (skipWs r4)
         else if c4 = rbrace then some (.jobj (acc ++ [(key, v)]), r4)
         else none) := by
  have hshape : encJString key ++ (':' :: ' ' :: vrest) =
      '"' :: ((key.map escChar).flatten ++ ('"' :: (':' :: ' ' :: vrest))) := by
    simp [encJString]
  rw [hshape]
  simp only [parseP]
  rw [show parseJStringBody ((key.map escChar).flatten ++ ('"' :: (':' :: ' ' :: vrest))) =
      some (key, ':' :: ' ' :: vrest) from parseJSB_enc key _]
  show (match parseP g PMode.val (' ' :: vrest) with
        | none => none
        | some (v, r3) =>
          match skipWs r3 with
          | [] => none
          | c4 :: r4 =>
            if c4 = ',' then parseP g (PMode.members (acc ++ [(key, v)])) (skipWs r4)
            else if c4 = rbrace then some (JsonVal.jobj (acc ++ [(key, v)]), r4)
            else none) = _
  rw [hval]

theorem skipWs_encJString (k z : List Char) :
    skipWs (encJString k ++ z) = encJString k ++ z := by
  rw [show encJString k ++ z = '"' :: ((k.map escChar).flatten ++ ('"' :: z)) from by
    simp [encJString]]
  exact skipWs_not_ws _ (by rfl)

theorem parseP_env_open (g : Nat) (key z : List Char) :
    parseP (g + 1) .val (lbrace :: (encJString key ++ z)) =
      parseP g (.members []) (encJString key ++ z) := by
  have hshape : encJString key ++ z = '"' :: ((key.map escChar).flatten ++ ('"' :: z)) := by
    simp [encJString]
  show (match skipWs (encJString key ++ z) with
        | [] => none
        | c2 :: r2 =>
          if c2 = rbrace then some (JsonVal.jobj [], r2)
          else parseP g (.members []) (c2 :: r2)) = _
  rw [skipWs_encJString, hshape]
  show (if '"' = rbrace then some (JsonVal.jobj [], (key.map escChar).flatten ++ ('"' :: z))
        else parseP g (.members []) ('"' :: ((key.map escChar).flatten ++ ('"' :: z)))) = _
  rw [if_neg (show ¬('"' = rbrace) from by decide)]

theorem parseP_env_intmember (g : Nat) (acc : List (List Char × JsonVal))
    (key : List Char) (i : Int) (key2 z : List Char) :
    parseP (g + 2) (.members acc)
      (encJString key ++ (':' :: ' ' :: (encInt i ++ (',' :: ' ' :: (encJString key2 ++ z))))) =
      parseP (g + 1) (.members (acc ++ [(key, .jnum i)])) (encJString key2 ++ z) := by
  have hstop : ∀ c ∈ (',' :: ' ' :: (encJString key2 ++ z)).take 1,
      isDigitCh c = false ∧ c ≠ '.' ∧ c ≠ 'e' ∧ c ≠ 'E' := by
    intro c hc
    simp at hc
    subst hc
    exact ⟨by decide, by decide, by decide, by decide⟩
  rw [show (g + 2 : Nat) = (g + 1) + 1 from rfl]
  rw [parseP_member_step (g + 1) acc key _ _ (.jnum i)
    (parseP_val_jnum g i (',' :: ' ' :: (encJString key2 ++ z)) hstop)]
  show parseP (g + 1) (.members (acc ++ [(key, JsonVal.jnum i)]))
      (skipWs (' ' :: (encJString key2 ++ z))) = _
  rw [skipWs_space, skipWs_encJString]

theorem parseP_env_strmember (g : Nat) (acc : List (List Char × JsonVal))
    (key sv key2 z : List Char) :
    parseP (g + 2) (.members acc)
      (encJString key ++ (':' :: ' ' :: (encJString sv ++ (',' :: ' ' :: (encJString key2 ++ z))))) =
      parseP (g + 1) (.members (acc ++ [(key, .jstr sv)])) (encJString key2 ++ z) := by
  rw [show (g + 2 : Nat) = (g + 1) + 1 from rfl]
  rw [parseP_member_step (g + 1) acc key _ _ (.jstr sv)
    (parseP_val_jstr g sv (',' :: ' ' :: (encJString key2 ++ z)))]
  show parseP (g + 1) (.members (acc ++ [(key, JsonVal.jstr sv)]))
      (skipWs (' ' :: (encJString key2 ++ z))) = _
  rw [skipWs_space, skipWs_encJString]

theorem parseP_env_laststr (g : Nat) (acc : List (List Char × JsonVal)) (key sv : List Char) :
    parseP (g + 2) (.members acc)
      (encJString key ++ (':' :: ' ' :: (encJString sv ++ [rbrace]))) =
      some (.jobj (acc ++ [(key, .jstr sv)]), []) := by
  rw [show (g + 2 : Nat) = (g + 1) + 1 from rfl]
  rw [parseP_member_step (g + 1) acc key _ _ (.jstr sv) (parseP_val_jstr g sv [rbrace])]
  rfl

theorem parseP_encodeEnvBody (e : Envelope) (f : Nat) :
    parseP (f + 9) .val (encodeEnvBody e) = some (envObj e, []) := by
  have hsh : encodeEnvBody e =
      lbrace :: (encJString kId ++ (':' :: ' ' :: (encInt e.id ++ (',' :: ' ' :: (encJString kTarget ++ (':' :: ' ' :: (encJString e.target ++ (',' :: ' ' :: (encJString kMsgType ++ (':' :: ' ' :: (encJString e.msgType ++ (',' :: ' ' :: (encJString kContent ++ (':' :: ' ' :: (encJString e.content ++ [rbrace]))))))))))))))) := by
    simp [encodeEnvBody, List.append_assoc]
  rw [hsh]
  rw [show (f + 9 : Nat) = (f + 8) + 1 from rfl, parseP_env_open (f + 8)]
  rw [show (f + 8 : Nat) = (f + 6) + 2 from rfl, parseP_env_intmember (f + 6)]
  rw [show (f + 6 + 1 : Nat) = (f + 5) + 2 from rfl, parseP_env_strmember (f + 5)]
  rw [show (f + 5 + 1 : Nat) = (f + 4) + 2 from rfl, parseP_env_strmember (f + 4)]
  rw [show (f + 4 + 1 : Nat) = (f + 3) + 2 from rfl, parseP_env_laststr (f + 3)]
  simp [envObj]

theorem jsonLoads_encodeEnvBody (e : Envelope) :
    jsonLoads (encodeEnvBody e) = some (envObj e) := by
  unfold jsonLoads
  rw [show ((encodeEnvBody e).length + 16 : Nat) = ((encodeEnvBody e).length + 7) + 9 from by
    omega]
  rw [parseP_encodeEnvBody e ((encodeEnvBody e).length + 7)]
  rfl

/-! ## The serialized envelope is printable ASCII on one line -/

theorem hexDigitCh_printable (k : Nat) (h : k < 16) :
    0x20 ≤ (hexDigitCh k).toNat ∧ (hexDigitCh k).toNat ≤ 0x7E := by
  interval_cases k <;> exact ⟨by decide, by decide⟩

theorem uhex_printable (n : Nat) :
    ∀ x ∈ '\\' :: 'u' :: hex4Enc n, 0x20 ≤ x.toNat ∧ x.toNat ≤ 0x7E := by
  intro x hx
  rcases List.mem_cons.mp hx with rfl | hx
  · exact ⟨by decide, by decide⟩
  rcases List.mem_cons.mp hx with rfl | hx
  · exact ⟨by decide, by decide⟩
  simp only [hex4Enc, List.mem_cons, List.not_mem_nil, or_false] at hx
  rcases hx with rfl | rfl | rfl | rfl <;>
    exact hexDigitCh_printable _ (Nat.mod_lt _ (by omega))

theorem escChar_printable (c : Char) :
    ∀ x ∈ escChar c, 0x20 ≤ x.toNat ∧ x.toNat ≤ 0x7E := by
  intro x hx
  unfold escChar at hx
  split_ifs at hx with h1 h2 h3 h4 h5 h6 h7 h8 h9
  · simp only [List.mem_cons, List.not_mem_nil, or_false] at hx
    rcases hx with rfl | rfl <;> exact ⟨by decide, by decide⟩
  · simp only [List.mem_cons, List.not_mem_nil, or_false] at hx
    rcases hx with rfl | rfl <;> exact ⟨by decide, by decide⟩
  · simp only [List.mem_cons, List.not_mem_nil, or_false] at hx
    rcases hx with rfl | rfl <;> exact ⟨by decide, by decide⟩
  · simp only [List.mem_cons, List.not_mem_nil, or_false] at hx
    rcases hx with rfl | rfl <;> exact ⟨by decide, by decide⟩
  · simp only [List.mem_cons, List.not_mem_nil, or_false] at hx
    rcases hx with rfl | rfl <;> exact ⟨by decide, by decide⟩
  · simp only [List.mem_cons, List.not_mem_nil, or_false] at hx
    rcases hx with rfl | rfl <;> exact ⟨by decide, by decide⟩
  · simp only [List.mem_cons, List.not_mem_nil, or_false] at hx
    rcases hx with rfl | rfl <;> exact ⟨by decide, by decide⟩
  · simp only [List.mem_singleton] at hx
    subst hx
    simp only [Bool.and_eq_true, decide_eq_true_eq] at h8
    omega
  · exact uhex_printable _ x hx
  · rcases List.mem_append.mp hx with h | h
    · exact uhex_printable _ x h
    · exact uhex_printable _ x h

theorem encJStringTail_printable (s : List Char) :
    ∀ x ∈ (s.map escChar).flatten ++ ['"'], 0x20 ≤ x.toNat ∧ x.toNat ≤ 0x7E := by
  intro x hx
  rcases List.mem_append.mp hx with hx3 | hx4
  · obtain ⟨l, hl, hxl⟩ := List.mem_flatten.mp hx3
    obtain ⟨c, hc, rfl⟩ := List.mem_map.mp hl
    exact escChar_printable c x hxl
  · have := List.mem_singleton.mp hx4
    subst this
    exact ⟨by decide, by decide⟩

theorem encJString_printable (s : List Char) :
    ∀ x ∈ encJString s, 0x20 ≤ x.toNat ∧ x.toNat ≤ 0x7E := by
  intro x hx
  simp only [encJString] at hx
  rcases List.mem_cons.mp hx with rfl | hx2
  · exact ⟨by decide, by decide⟩
  · exact encJStringTail_printable s x hx2

theorem encInt_printable (i : Int) :
    ∀ x ∈ encInt i, 0x20 ≤ x.toNat ∧ x.toNat ≤ 0x7E := by
  intro x hx
  unfold encInt at hx
  have hdig : ∀ (n : Nat), x ∈ natToDigits n → 0x20 ≤ x.toNat ∧ x.toNat ≤ 0x7E := by
    intro n hn
    have := natToDigits_all_digit n x hn
    simp only [isDigitCh, Bool.and_eq_true, decide_eq_true_eq] at this
    omega
  split_ifs at hx
  · rcases List.mem_cons.mp hx with rfl | hx2
    · exact ⟨by decide, by decide⟩
    · exact hdig _ hx2
  · exact hdig _ hx

theorem encodeEnvBody_printable (e : Envelope) :
    ∀ x ∈ encodeEnvBody e, 0x20 ≤ x.toNat ∧ x.toNat ≤ 0x7E := by
  intro x hx
  simp only [encodeEnvBody, List.mem_append, List.mem_cons, List.not_mem_nil, or_false,
    List.mem_singleton] at hx
  repeat' rcases hx with hx | hx
  all_goals first
    | exact ⟨by decide, by decide⟩
    | exact encJString_printable _ x (by assumption)
    | exact encJStringTail_printable _ x (by assumption)
    | exact encInt_printable _ x (by assumption)

/-! ## Framing the encoded record -/

theorem breakNl_no_nl (l r : List Char) (hl : ∀ c ∈ l, c ≠ '\n') :
    breakNl (l ++ '\n' :: r) = some (l, r) := by
  induction l with
  | nil => simp [breakNl]
  | cons c t ih =>
    have hc : c ≠ '\n' := hl c (List.mem_cons_self c t)
    simp only [List.cons_append, breakNl, if_neg hc, List.append_eq,
      ih (fun x hx => hl x (List.mem_cons_of_mem _ hx)), Option.map_some']

theorem encodeEnvBody_no_nl (e : Envelope) : ∀ c ∈ encodeEnvBody e, c ≠ '\n' := by
  intro c hc heq
  have h := encodeEnvBody_printable e c hc
  rw [heq] at h
  exact absurd h.1 (by decide)

theorem breakNl_encodeEnv (e : Envelope) :
    breakNl (encodeEnv e) = some (encodeEnvBody e, []) :=
  breakNl_no_nl _ _ (encodeEnvBody_no_nl e)

theorem dropWhile_cons_false (p : Char → Bool) (c : Char) (t : List Char) (h : p c = false) :
    (c :: t).dropWhile p = c :: t := by
  simp [List.dropWhile_cons, h]

theorem encodeEnvBody_shape (e : Envelope) :
    ∃ m, encodeEnvBody e = lbrace :: (m ++ [rbrace]) := by
  refine ⟨encJString kId ++ [':', ' '] ++ encInt e.id ++
    [',', ' '] ++ encJString kTarget ++ [':', ' '] ++ encJString e.target ++
    [',', ' '] ++ encJString kMsgType ++ [':', ' '] ++ encJString e.msgType ++
    [',', ' '] ++ encJString kContent ++ [':', ' '] ++ encJString e.content, ?_⟩
  simp [encodeEnvBody, List.append_assoc]

theorem pyStrip_braced (m : List Char) :
    pyStrip (lbrace :: (m ++ [rbrace])) = lbrace :: (m ++ [rbrace]) := by
  unfold pyStrip
  rw [dropWhile_cons_false _ _ _ (by decide)]
  rw [show (lbrace :: (m ++ [rbrace])).reverse = rbrace :: (m.reverse ++ [lbrace]) from by simp]
  rw [dropWhile_cons_false _ _ _ (by decide)]
  simp

theorem pyStrip_encodeEnvBody (e : Envelope) :
    pyStrip (encodeEnvBody e) = encodeEnvBody e := by
  obtain ⟨m, hm⟩ := encodeEnvBody_shape e
  rw [hm, pyStrip_braced]

theorem encodeEnvBody_ne_nil (e : Envelope) : encodeEnvBody e ≠ [] := by
  obtain ⟨m, hm⟩ := encodeEnvBody_shape e
  rw [hm]
  exact List.cons_ne_nil _ _

theorem drain_encodeEnv (e : Envelope) :
    drain (encodeEnv e) = ([encodeEnvBody e], []) := by
  rw [drain_eq, breakNl_encodeEnv e]
  dsimp only
  rw [pyStrip_encodeEnvBody e]
  rw [show drain ([] : List Char) = ([], []) from rfl]
  rw [if_neg (encodeEnvBody_ne_nil e)]

/-! ## Tag search and classification -/

theorem leadsOf_append_left (a b s : List Char) (h : leadsOf (a ++ b) s = true) :
    leadsOf a s = true := by
  induction a generalizing s with
  | nil => rfl
  | cons c t ih =>
    cases s with
    | nil => simp [leadsOf] at h
    | cons d u =>
      simp only [List.cons_append, leadsOf, Bool.and_eq_true] at h ⊢
      exact ⟨h.1, ih u h.2⟩

theorem occursIn_mono (a b s : List Char) (h : occursIn (a ++ b) s = true) :
    occursIn a s = true := by
  induction s with
  | nil => exact leadsOf_append_left a b [] h
  | cons c t ih =>
    simp only [occursIn, Bool.or_eq_true] at h ⊢
    rcases h with h | h
    · exact Or.inl (leadsOf_append_left a b _ h)
    · exact Or.inr (ih h)

theorem leadsOf_occursIn (n s : List Char) (h : leadsOf n s = true) :
    occursIn n s = true := by
  cases s with
  | nil => exact h
  | cons c t =>
    simp only [occursIn, Bool.or_eq_true]
    exact Or.inl h

theorem occursIn_append_false (a b s : List Char) (h : occursIn a s = false) :
    occursIn (a ++ b) s = false := by
  cases hob : occursIn (a ++ b) s with
  | false => rfl
  | true => simp [occursIn_mono a b s hob] at h

theorem leadsOf_false_of_occursIn (a s : List Char) (h : occursIn a s = false) :
    leadsOf a s = false := by
  cases hl : leadsOf a s with
  | false => rfl
  | true => simp [leadsOf_occursIn a s hl] at h

theorem reTagSearch_cons (tag : List Char) (c : Char) (t : List Char) :
    reTagSearch tag (c :: t) =
      if leadsOf (tag ++ [lbrace]) (c :: t) then
        match upToLastRbrace ((c :: t).drop (tag.length + 1)) with
        | some p => some (lbrace :: p)
        | none => reTagSearch tag t
      else reTagSearch tag t := rfl

theorem reTagSearch_none_of_not_occurs (tag s : List Char)
    (h : occursIn (tag ++ [lbrace]) s = false) : reTagSearch tag s = none := by
  induction s with
  | nil => rfl
  | cons c t ih =>
    simp only [occursIn, Bool.or_eq_false_iff] at h
    rw [reTagSearch_cons, h.1]
    simp only [Bool.false_eq_true, if_false]
    exact ih h.2

theorem leadsOf_append_self (t u : List Char) : leadsOf t (t ++ u) = true := by
  induction t with
  | nil => rfl
  | cons c s ih => simp [leadsOf, ih]

theorem upToLastRbrace_append (l : List Char) :
    upToLastRbrace (l ++ [rbrace]) = some (l ++ [rbrace]) := by
  induction l with
  | nil => rfl
  | cons c t ih => simp only [List.cons_append, upToLastRbrace, List.append_eq, ih]

theorem reTagSearch_self (c : Char) (t mid : List Char) :
    reTagSearch (c :: t) (c :: (t ++ lbrace :: (mid ++ [rbrace]))) =
      some (lbrace :: (mid ++ [rbrace])) := by
  have hlead : leadsOf ((c :: t) ++ [lbrace]) (c :: (t ++ lbrace :: (mid ++ [rbrace]))) = true := by
    have h := leadsOf_append_self ((c :: t) ++ [lbrace]) (mid ++ [rbrace])
    simp only [List.cons_append, List.append_assoc, List.singleton_append] at h ⊢
    exact h
  have hdrop : (c :: (t ++ lbrace :: (mid ++ [rbrace]))).drop ((c :: t).length + 1) =
      mid ++ [rbrace] := by
    have h2 := List.drop_left (t ++ [lbrace]) (mid ++ [rbrace])
    simp only [List.length_append, List.length_cons, List.length_singleton] at h2 ⊢
    rw [show t.length + 1 + 1 = (t.length + 1) + 1 from rfl, List.drop_succ_cons]
    simp only [List.append_assoc, List.singleton_append] at h2
    exact h2
  rw [reTagSearch_cons, if_pos hlead, hdrop, upToLastRbrace_append]

theorem reTagSearch_lead (tag mid : List Char) (c : Char) (t : List Char) (htag : tag = c :: t) :
    reTagSearch tag (tag ++ lbrace :: (mid ++ [rbrace])) = some (lbrace :: (mid ++ [rbrace])) := by
  subst htag
  rw [show (c :: t) ++ lbrace :: (mid ++ [rbrace]) = c :: (t ++ lbrace :: (mid ++ [rbrace])) from
    rfl]
  exact reTagSearch_self c t mid

theorem classify_pipe (mid : List Char) :
    classify (tagPIPE ++ lbrace :: (mid ++ [rbrace])) =
      (strL ("gui_pipeline_diagram"), lbrace :: (mid ++ [rbrace])) := by
  unfold classify
  rw [reTagSearch_lead tagPIPE mid 'G' (strL ("UI_PIPELINE_DIAGRAM:")) rfl]

theorem classify_ml (mid resp : List Char) (hresp : resp = tagML ++ lbrace :: (mid ++ [rbrace]))
    (h1 : occursIn tagPIPE resp = false) :
    classify resp = (strL ("gui_ml_dashboard"), lbrace :: (mid ++ [rbrace])) := by
  subst hresp
  unfold classify
  rw [reTagSearch_none_of_not_occurs _ _ (occursIn_append_false _ _ _ h1)]
  rw [reTagSearch_lead tagML mid 'G' (strL ("UI_ML_DASHBOARD:")) rfl]

theorem classify_plot (mid resp : List Char) (hresp : resp = tagPLOT ++ lbrace :: (mid ++ [rbrace]))
    (h1 : occursIn tagPIPE resp = false) (h2 : occursIn tagML resp = false) :
    classify resp = (strL ("gui_plot"), lbrace :: (mid ++ [rbrace])) := by
  subst hresp
  unfold classify
  rw [reTagSearch_none_of_not_occurs _ _ (occursIn_append_false _ _ _ h1)]
  rw [reTagSearch_none_of_not_occurs _ _ (occursIn_append_false _ _ _ h2)]
  rw [reTagSearch_lead tagPLOT mid 'G' (strL ("UI_PLOT:")) rfl]

theorem classify_chess (mid resp : List Char)
    (hresp : resp = tagCHESS ++ lbrace :: (mid ++ [rbrace]))
    (h1 : occursIn tagPIPE resp = false) (h2 : occursIn tagML resp = false)
    (h3 : occursIn tagPLOT resp = false) :
    classify resp = (strL ("gui_chess"), lbrace :: (mid ++ [rbrace])) := by
  subst hresp
  unfold classify
  rw [reTagSearch_none_of_not_occurs _ _ (occursIn_append_false _ _ _ h1)]
  rw [reTagSearch_none_of_not_occurs _ _ (occursIn_append_false _ _ _ h2)]
  rw [reTagSearch_none_of_not_occurs _ _ (occursIn_append_false _ _ _ h3)]
  rw [reTagSearch_lead tagCHESS mid 'G' (strL ("UI_CHESS:")) rfl]

theorem classify_untagged (resp : List Char)
    (h1 : occursIn tagPIPE resp = false) (h2 : occursIn tagML resp = false)
    (h3 : occursIn tagPLOT resp = false) (h4 : occursIn tagCHESS resp = false) :
    classify resp = (vResponse, resp) := by
  unfold classify
  rw [reTagSearch_none_of_not_occurs _ _ (occursIn_append_false _ _ _ h1),
      reTagSearch_none_of_not_occurs _ _ (occursIn_append_false _ _ _ h2),
      reTagSearch_none_of_not_occurs _ _ (occursIn_append_false _ _ _ h3),
      reTagSearch_none_of_not_occurs _ _ (occursIn_append_false _ _ _ h4),
      leadsOf_false_of_occursIn _ _ h3, leadsOf_false_of_occursIn _ _ h1,
      leadsOf_false_of_occursIn _ _ h2]
  simp

/-! ## The paced chunked writer -/

theorem chunksOfF_flatten :
    ∀ f (s : List Char), s.length ≤ f → (chunksOfF f s).flatten = s := by
  intro f
  induction f with
  | zero =>
    intro s hf
    cases s with
    | nil => rfl
    | cons c t => simp at hf
  | succ f ih =>
    intro s hf
    cases s with
    | nil => rfl
    | cons c t =>
      simp only [chunksOfF, List.flatten_cons]
      rw [ih (t.drop 31) (by simp at hf ⊢; omega)]
      simp [List.cons_append, List.take_append_drop]

theorem chunks32_flatten (s : List Char) : (chunks32 s).flatten = s :=
  chunksOfF_flatten s.length s (Nat.le_refl _)

theorem chunksOfF_length :
    ∀ f (s : List Char), s.length ≤ f → (chunksOfF f s).length = (s.length + 31) / 32 := by
  intro f
  induction f with
  | zero =>
    intro s hf
    cases s with
    | nil => rfl
    | cons c t => simp at hf
  | succ f ih =>
    intro s hf
    cases s with
    | nil => rfl
    | cons c t =>
      simp only [chunksOfF, List.length_cons]
      rw [ih (t.drop 31) (by simp at hf ⊢; omega)]
      simp only [List.length_drop]
      omega

theorem chunks32_length (s : List Char) : (chunks32 s).length = (s.length + 31) / 32 :=
  chunksOfF_length s.length s (Nat.le_refl _)

theorem chunksOfF_short :
    ∀ f (s : List Char), s.length ≤ f → ∀ ch ∈ chunksOfF f s, ch.length ≤ 32 := by
  intro f
  induction f with
  | zero =>
    intro s hf ch hch
    cases s with
    | nil => simp [chunksOfF] at hch
    | cons c t => simp at hf
  | succ f ih =>
    intro s hf ch hch
    cases s with
    | nil => simp [chunksOfF] at hch
    | cons c t =>
      simp only [chunksOfF, List.mem_cons] at hch
      rcases hch with rfl | hch
      · simp only [List.length_cons, List.length_take]
        omega
      · exact ih (t.drop 31) (by simp at hf ⊢; omega) ch hch

theorem chunks32_short (s : List Char) : ∀ ch ∈ chunks32 s, ch.length ≤ 32 :=
  chunksOfF_short s.length s (Nat.le_refl _)

theorem sendChunk_ready (ok : Nat → Bool) (ch : List Char) (h : ok 0 = true) :
    sendChunk ok ch = [SendEv.wrote ch, SendEv.slept 20] := by
  simp [sendChunk, tryWrite, h]

theorem sendLoop_ready (chs : List (List Char)) :
    ∀ i, sendLoop oracleReady i chs =
      (chs.map (fun ch => [SendEv.wrote ch, SendEv.slept 20])).flatten := by
  induction chs with
  | nil => intro i; rfl
  | cons ch rest ih =>
    intro i
    simp only [sendLoop, List.map_cons, List.flatten_cons, ih]
    rw [sendChunk_ready _ _ rfl]

theorem sendPaced_ready (s : List Char) :
    sendPaced oracleReady s =
      ((chunks32 s).map (fun ch => [SendEv.wrote ch, SendEv.slept 20])).flatten :=
  sendLoop_ready (chunks32 s) 0

theorem utf8Len_ascii (s : List Char) (h : ∀ c ∈ s, c.toNat < 0x80) :
    utf8Len s = s.length := by
  induction s with
  | nil => rfl
  | cons c t ih =>
    simp only [utf8Len, List.map_cons, List.sum_cons, List.length_cons]
    have hc : charUtf8Size c = 1 := by
      simp [charUtf8Size, h c (List.mem_cons_self c t)]
    rw [hc, show (t.map charUtf8Size).sum = utf8Len t from rfl,
      ih (fun x hx => h x (List.mem_cons_of_mem _ hx))]
    omega

theorem encodeEnv_ascii (e : Envelope) : ∀ c ∈ encodeEnv e, c.toNat < 0x80 := by
  intro c hc
  rcases List.mem_append.mp hc with h | h
  · have := encodeEnvBody_printable e c h
    omega
  · have hc2 : c = '\n' := List.mem_singleton.mp h
    subst hc2
    decide

theorem utf8Len_encodeEnv (e : Envelope) : utf8Len (encodeEnv e) = (encodeEnv e).length :=
  utf8Len_ascii _ (encodeEnv_ascii e)

theorem chunk_utf8Len_encodeEnv (e : Envelope) :
    ∀ ch ∈ chunks32 (encodeEnv e), utf8Len ch ≤ 32 := by
  intro ch hch
  have hsub : ∀ c ∈ ch, c ∈ encodeEnv e := by
    intro c hc
    rw [show encodeEnv e = (chunks32 (encodeEnv e)).flatten from (chunks32_flatten _).symm]
    exact List.mem_flatten.mpr ⟨ch, hch, hc⟩
  rw [utf8Len_ascii ch (fun c hc => encodeEnv_ascii e c (hsub c hc))]
  exact chunks32_short _ ch hch

theorem tryWrite_blocked (ok : Nat → Bool) (ch : List Char)
    (h0 : ok 0 = false) (h1 : ok 1 = false) (h2 : ok 2 = false) :
    tryWrite ok ch 0 3 = ([SendEv.slept 10, SendEv.slept 10, SendEv.slept 10], false) := by
  simp [tryWrite, h0, h1, h2]

theorem sendChunk_exhaust (ok : Nat → Bool) (ch : List Char)
    (h0 : ok 0 = false) (h1 : ok 1 = false) (h2 : ok 2 = false) :
    sendChunk ok ch =
      [SendEv.slept 10, SendEv.slept 10, SendEv.slept 10,
       SendEv.exhausted ch, SendEv.slept 20] := by
  simp [sendChunk, tryWrite_blocked ok ch h0 h1 h2]

theorem sendLoop_cons (oracle : Nat → Nat → Bool) (i : Nat) (ch : List Char)
    (rest : List (List Char)) :
    sendLoop oracle i (ch :: rest) = sendChunk (oracle i) ch ++ sendLoop oracle (i + 1) rest :=
  rfl

/-! ## The record loop -/

theorem recordStep_task (g : Bool) (hd : List Char → HandlerOut) (r : List Char)
    (kvs : List (List Char × JsonVal)) (prompt resp : List Char)
    (hj : jsonLoads r = some (.jobj kvs))
    (hmt : dictGet kvs kMsgType = some (.jstr vTask))
    (hct : dictGet kvs kContent = some (.jstr prompt))
    (hdisp : dispatchTask g hd prompt = some resp) :
    recordStep g hd r =
      .emit [mkReply (dictGet kvs kId) (classify resp).1 (classify resp).2] := by
  unfold recordStep
  rw [hj]
  dsimp only
  rw [hmt]
  dsimp only
  rw [if_pos rfl, hct]
  dsimp only [Option.getD_some]
  rw [hdisp]

theorem recordStep_badjson (g : Bool) (hd : List Char → HandlerOut) (r : List Char)
    (hj : jsonLoads r = none) : recordStep g hd r = .emit [] := by
  unfold recordStep
  rw [hj]

theorem recordStep_missing (g : Bool) (hd : List Char → HandlerOut) (r : List Char)
    (kvs : List (List Char × JsonVal)) (hj : jsonLoads r = some (.jobj kvs))
    (hmt : dictGet kvs kMsgType = none) : recordStep g hd r = .emit [] := by
  unfold recordStep
  rw [hj]
  dsimp only
  rw [hmt]

theorem runRecords_cons_emit (g : Bool) (hd : List Char → HandlerOut) (r : List Char)
    (rs : List (List Char)) (es : List JsonVal) (he : recordStep g hd r = .emit es) :
    (runRecords g hd (r :: rs)).sent = es ++ (runRecords g hd rs).sent ∧
    (runRecords g hd (r :: rs)).isCrash = (runRecords g hd rs).isCrash := by
  have hcons : runRecords g hd (r :: rs) =
      match recordStep g hd r with
      | .crash => .crashed []
      | .emit es =>
        match runRecords g hd rs with
        | .ok more => .ok (es ++ more)
        | .crashed more => .crashed (es ++ more) := rfl
  rw [hcons, he]
  cases hr : runRecords g hd rs <;> simp [LoopOut.sent, LoopOut.isCrash]

theorem recordStep_emit_shape (g : Bool) (hd : List Char → HandlerOut) (r : List Char)
    (es : List JsonVal) (he : recordStep g hd r = .emit es) :
    ∀ v ∈ es, ∃ i mt ct, v = mkReply i mt ct := by
  unfold recordStep at he
  repeat' split at he
  all_goals try (injection he with he2; subst he2)
  all_goals try cases he
  all_goals intro v hv
  all_goals first
    | exact absurd hv (List.not_mem_nil v)
    | (rw [List.mem_singleton.mp hv]
       exact ⟨_, _, _, rfl⟩)

theorem runRecords_sent_shape (g : Bool) (hd : List Char → HandlerOut)
    (rs : List (List Char)) :
    ∀ v ∈ (runRecords g hd rs).sent, ∃ i mt ct, v = mkReply i mt ct := by
  induction rs with
  | nil =>
    intro v hv
    simp [runRecords, LoopOut.sent] at hv
  | cons r rs ih =>
    intro v hv
    unfold runRecords at hv
    cases he : recordStep g hd r with
    | crash =>
      rw [he] at hv
      simp [LoopOut.sent] at hv
    | emit es =>
      rw [he] at hv
      cases hr : runRecords g hd rs with
      | ok more =>
        rw [hr] at hv
        simp only [LoopOut.sent] at hv
        rcases List.mem_append.mp hv with h | h
        · exact recordStep_emit_shape g hd r es he v h
        · exact ih v (by rw [hr]; exact h)
      | crashed more =>
        rw [hr] at hv
        simp only [LoopOut.sent] at hv
        rcases List.mem_append.mp hv with h | h
        · exact recordStep_emit_shape g hd r es he v h
        · exact ih v (by rw [hr]; exact h)

theorem recordStep_ignores_target (g : Bool) (hd : List Char → HandlerOut)
    (r1 r2 : List Char) (kvs1 kvs2 : List (List Char × JsonVal))
    (hj1 : jsonLoads r1 = some (.jobj kvs1)) (hj2 : jsonLoads r2 = some (.jobj kvs2))
    (hid : dictGet kvs1 kId = dictGet kvs2 kId)
    (hmt : dictGet kvs1 kMsgType = dictGet kvs2 kMsgType)
    (hct : dictGet kvs1 kContent = dictGet kvs2 kContent) :
    recordStep g hd r1 = recordStep g hd r2 := by
  unfold recordStep
  rw [hj1, hj2]
  dsimp only
  rw [hid, hmt, hct]

theorem mkReply_target (i : Option JsonVal) (mt ct : List Char) :
    ∃ kvs, mkReply i mt ct = .jobj kvs ∧ dictGet kvs kTarget = some (.jstr vShell) :=
  ⟨_, rfl, rfl⟩

theorem dispatchTask_direct_err (g : Bool) (hd : List Char → HandlerOut) (p e : List Char)
    (hdir : isDirectDispatch p = true) (herr : hd p = .err e) :
    dispatchTask g hd p = none := by
  simp [dispatchTask, hdir, herr]

theorem dispatchTask_graph_err (hd : List Char → HandlerOut) (p e : List Char)
    (hdir : isDirectDispatch p = false) (herr : hd p = .err e) :
    dispatchTask true hd p = some (strL ("Agent Error: ") ++ e) := by
  simp [dispatchTask, hdir, herr]

theorem recordStep_task_crash (g : Bool) (hd : List Char → HandlerOut) (r : List Char)
    (kvs : List (List Char × JsonVal)) (prompt : List Char)
    (hj : jsonLoads r = some (.jobj kvs))
    (hmt : dictGet kvs kMsgType = some (.jstr vTask))
    (hct : dictGet kvs kContent = some (.jstr prompt))
    (hdisp : dispatchTask g hd prompt = none) :
    recordStep g hd r = .crash := by
  unfold recordStep
  rw [hj]
  dsimp only
  rw [hmt]
  dsimp only
  rw [if_pos rfl, hct]
  dsimp only [Option.getD_some]
  rw [hdisp]

theorem runRecords_cons_crash (g : Bool) (hd : List Char → HandlerOut) (r : List Char)
    (rs : List (List Char)) (he : recordStep g hd r = .crash) :
    runRecords g hd (r :: rs) = .crashed [] := by
  have hcons : runRecords g hd (r :: rs) =
      match recordStep g hd r with
      | .crash => .crashed []
      | .emit es =>
        match runRecords g hd rs with
        | .ok more => .ok (es ++ more)
        | .crashed more => .crashed (es ++ more) := rfl
  rw [hcons, he]

theorem runFeeds_valid (chunks : List (List Nat)) (hv : ∀ c ∈ chunks, utf8ValidB c = true) :
    runFeeds chunks = drain (utf8DecodeIgnore chunks.flatten) := by
  unfold runFeeds
  rw [runFeeds_general chunks [] [] rfl]
  rw [← utf8_decode_flatten chunks hv]
  simp

theorem runRecords_cons_skip (g : Bool) (hd : List Char → HandlerOut) (r : List Char)
    (rs : List (List Char)) (he : recordStep g hd r = .emit []) :
    runRecords g hd (r :: rs) = runRecords g hd rs := by
  have hcons : runRecords g hd (r :: rs) =
      match recordStep g hd r with
      | .crash => .crashed []
      | .emit es =>
        match runRecords g hd rs with
        | .ok more => .ok (es ++ more)
        | .crashed more => .crashed (es ++ more) := rfl
  rw [hcons, he]
  cases runRecords g hd rs <;> simp

/-! # The claims -/

/-- C1 (amended): for a decoded task envelope whose prompt does not hit the
direct keyword branches, a Handler error in the agent-graph branch is
converted into the plain-text reply `"Agent Error: ..."` with
`msg_type = "response"`, exactly one correlated reply is emitted through the
normal reply path, and the loop keeps running.  (Unamended, the claim is
false: a task routed to a direct keyword branch propagates the Handler
error, emits nothing and kills the loop — see the counterexample.) -/
theorem claim_C1 (hd : List Char → HandlerOut) (r : List Char)
    (kvs : List (List Char × JsonVal)) (prompt em : List Char) (rs : List (List Char))
    (hj : jsonLoads r = some (.jobj kvs))
    (hmt : dictGet kvs kMsgType = some (.jstr vTask))
    (hct : dictGet kvs kContent = some (.jstr prompt))
    (hdir : isDirectDispatch prompt = false)
    (herr : hd prompt = .err em)
    (h1 : occursIn tagPIPE (strL ("Agent Error: ") ++ em) = false)
    (h2 : occursIn tagML (strL ("Agent Error: ") ++ em) = false)
    (h3 : occursIn tagPLOT (strL ("Agent Error: ") ++ em) = false)
    (h4 : occursIn tagCHESS (strL ("Agent Error: ") ++ em) = false) :
    recordStep true hd r =
      .emit [mkReply (dictGet kvs kId) vResponse (strL ("Agent Error: ") ++ em)] ∧
    (runRecords true hd (r :: rs)).sent =
      mkReply (dictGet kvs kId) vResponse (strL ("Agent Error: ") ++ em)
        :: (runRecords true hd rs).sent ∧
    (runRecords true hd (r :: rs)).isCrash = (runRecords true hd rs).isCrash := by
  have hstep := recordStep_task true hd r kvs prompt _ hj hmt hct
    (dispatchTask_graph_err hd prompt em hdir herr)
  rw [classify_untagged _ h1 h2 h3 h4] at hstep
  obtain ⟨hs, hc⟩ := runRecords_cons_emit true hd r rs _ hstep
  refine ⟨hstep, ?_, hc⟩
  rw [hs]
  rfl

/-- C1 witness: a task record whose prompt avoids every direct keyword, with
the Handler raising `"boom"`, yields exactly the `"Agent Error: boom"` reply
and leaves the loop alive. -/
theorem claim_C1_witness :
    recordStep true (fun _ => HandlerOut.err (strL ("boom")))
      (strL ("\x7b\"id\": 7, \"msg_type\": \"task\", \"content\": \"tell me a story\"\x7d")) =
      .emit [mkReply (some (.jnum 7)) vResponse (strL ("Agent Error: boom"))] :=
  (claim_C1 (fun _ => HandlerOut.err (strL ("boom")))
    (strL ("\x7b\"id\": 7, \"msg_type\": \"task\", \"content\": \"tell me a story\"\x7d"))
    [(strL ("id"), .jnum 7), (strL ("msg_type"), .jstr (strL ("task"))),
     (strL ("content"), .jstr (strL ("tell me a story")))]
    (strL ("tell me a story")) (strL ("boom")) []
    rfl rfl rfl rfl rfl rfl rfl rfl rfl).1

/-- C1 counterexample: a syntactically valid task envelope whose prompt hits
the calculator keyword branch and whose Handler raises gets NO reply, and the
uncaught error terminates the loop, dropping the following record — the
original claim fails. -/
theorem claim_C1_counterexample :
    runRecords true (fun _ => HandlerOut.err (strL ("boom")))
      [strL ("\x7b\"id\": 1, \"msg_type\": \"task\", \"content\": \"calculate 2+2\"\x7d"),
       strL ("\x7b\"id\": 2, \"msg_type\": \"task\", \"content\": \"tell me a story\"\x7d")] =
      .crashed [] := rfl

/-- C2 (amended): a framed record that fails JSON decoding, or decodes to an
object without the `msg_type` key, is skipped with nothing sent and the loop
goes on to process the following records.  (Unamended, the claim is false:
a record that decodes to a non-object JSON value — also not a valid
envelope — raises on the `.get` call and terminates the loop, see the
counterexample.) -/
theorem claim_C2 (g : Bool) (hd : List Char → HandlerOut) (r r2 : List Char)
    (rs : List (List Char)) (kvs : List (List Char × JsonVal))
    (hj : jsonLoads r = none)
    (hj2 : jsonLoads r2 = some (.jobj kvs))
    (hmt : dictGet kvs kMsgType = none) :
    recordStep g hd r = .emit [] ∧
    runRecords g hd (r :: rs) = runRecords g hd rs ∧
    recordStep g hd r2 = .emit [] ∧
    runRecords g hd (r2 :: rs) = runRecords g hd rs := by
  have ha := recordStep_badjson g hd r hj
  have hb := recordStep_missing g hd r2 kvs hj2 hmt
  exact ⟨ha, runRecords_cons_skip g hd r rs ha, hb, runRecords_cons_skip g hd r2 rs hb⟩

/-- C2 witness: a non-JSON record and an object record without `msg_type` are
both skipped, and the loop still processes the well-formed task that follows
them in the same feed. -/
theorem claim_C2_witness :
    recordStep true (fun _ => HandlerOut.ok (strL ("ok"))) (strL ("not json")) = .emit [] ∧
    runRecords true (fun _ => HandlerOut.ok (strL ("ok")))
      [strL ("not json"),
       strL ("\x7b\"id\": 3, \"msg_type\": \"task\", \"content\": \"hello\"\x7d")] =
      runRecords true (fun _ => HandlerOut.ok (strL ("ok")))
        [strL ("\x7b\"id\": 3, \"msg_type\": \"task\", \"content\": \"hello\"\x7d")] ∧
    recordStep true (fun _ => HandlerOut.ok (strL ("ok"))) (strL ("\x7b\"id\": 3\x7d")) =
      .emit [] ∧
    runRecords true (fun _ => HandlerOut.ok (strL ("ok")))
      [strL ("\x7b\"id\": 3\x7d"),
       strL ("\x7b\"id\": 3, \"msg_type\": \"task\", \"content\": \"hello\"\x7d")] =
      runRecords true (fun _ => HandlerOut.ok (strL ("ok")))
        [strL ("\x7b\"id\": 3, \"msg_type\": \"task\", \"content\": \"hello\"\x7d")] :=
  claim_C2 true (fun _ => HandlerOut.ok (strL ("ok"))) (strL ("not json"))
    (strL ("\x7b\"id\": 3\x7d"))
    [strL ("\x7b\"id\": 3, \"msg_type\": \"task\", \"content\": \"hello\"\x7d")]
    [(strL ("id"), .jnum 3)] rfl rfl rfl

/-- C2 counterexample: the record `42` is valid JSON but no envelope; instead
of being discarded it raises on `.get`, the loop dies and the well-formed
task that follows is never processed — the original claim fails. -/
theorem claim_C2_counterexample :
    runRecords true (fun _ => HandlerOut.ok (strL ("ok")))
      [strL ("42"), strL ("\x7b\"id\": 1, \"msg_type\": \"task\", \"content\": \"hello\"\x7d")] =
      .crashed [] := rfl

/-- C3: for every outbound record (an encoded envelope, all-ASCII so its
byte length equals its character length), the paced writer on a ready
channel splits the record into consecutive chunks whose concatenation is the
record, issues exactly `ceil(L/32)` writes with a 20 ms inter-chunk delay
after each, and no chunk exceeds 32 bytes. -/
theorem claim_C3 (e : Envelope) :
    sendPaced oracleReady (encodeEnv e) =
      ((chunks32 (encodeEnv e)).map
        (fun ch => [SendEv.wrote ch, SendEv.slept 20])).flatten ∧
    (chunks32 (encodeEnv e)).length = (utf8Len (encodeEnv e) + 31) / 32 ∧
    (chunks32 (encodeEnv e)).flatten = encodeEnv e ∧
    (∀ ch ∈ chunks32 (encodeEnv e), utf8Len ch ≤ 32) :=
  ⟨sendPaced_ready _,
   by rw [utf8Len_encodeEnv]; exact chunks32_length _,
   chunks32_flatten _,
   chunk_utf8Len_encodeEnv e⟩

/-- C4 (amended): feeding the Framer the same byte stream split at arbitrary
chunk boundaries yields the identical ordered record sequence, provided every
chunk is well-formed UTF-8 (splits at character boundaries).  (Unamended,
the claim is false: each read's bytes are decoded independently with
`errors='ignore'`, so a multi-byte character split across reads is silently
dropped rather than preserved — see the counterexample.) -/
theorem claim_C4 (c1 c2 : List (List Nat))
    (h1 : ∀ c ∈ c1, utf8ValidB c = true) (h2 : ∀ c ∈ c2, utf8ValidB c = true)
    (hsame : c1.flatten = c2.flatten) :
    runFeeds c1 = runFeeds c2 := by
  rw [runFeeds_valid c1 h1, runFeeds_valid c2 h2, hsame]

/-- C4 witness: an ASCII stream fed all-at-once and byte-by-byte produces the
same records and leftover buffer. -/
theorem claim_C4_witness :
    runFeeds [[0x61, 0x62, 0x0A]] = runFeeds [[0x61], [0x62], [0x0A]] :=
  claim_C4 [[0x61, 0x62, 0x0A]] [[0x61], [0x62], [0x0A]]
    (by decide) (by decide) (by decide)

/-- C4 counterexample: the two-byte character `é` followed by a newline is
framed as one record when fed at once, but split byte-by-byte both halves of
the character are dropped and the record differs — the original claim
fails. -/
theorem claim_C4_counterexample :
    (runFeeds [[0xC3, 0xA9, 0x0A]]).1 ≠ (runFeeds [[0xC3], [0xA9], [0x0A]]).1 := by
  decide

/-- C5: a decoded task envelope whose Handler result is untagged plain text
yields exactly one reply whose `id` is the request's id echoed unchanged,
whose `msg_type` is `"response"`, and whose `content` is the Handler text
unaltered. -/
theorem claim_C5 (g : Bool) (hd : List Char → HandlerOut) (r : List Char)
    (kvs : List (List Char × JsonVal)) (prompt resp : List Char) (n : Int)
    (hj : jsonLoads r = some (.jobj kvs))
    (hmt : dictGet kvs kMsgType = some (.jstr vTask))
    (hct : dictGet kvs kContent = some (.jstr prompt))
    (hid : dictGet kvs kId = some (.jnum n))
    (hdisp : dispatchTask g hd prompt = some resp)
    (h1 : occursIn tagPIPE resp = false) (h2 : occursIn tagML resp = false)
    (h3 : occursIn tagPLOT resp = false) (h4 : occursIn tagCHESS resp = false) :
    recordStep g hd r =
      .emit [.jobj [(kId, .jnum n), (kTarget, .jstr vShell),
                    (kMsgType, .jstr vResponse), (kContent, .jstr resp)]] := by
  have hstep := recordStep_task g hd r kvs prompt resp hj hmt hct hdisp
  rw [classify_untagged resp h1 h2 h3 h4, hid] at hstep
  exact hstep

/-- C5 witness: the spec's example — a task with `id = 42` whose Handler
returns `"ok"` yields the reply `id == 42`, `msg_type == "response"`,
`content == "ok"`. -/
theorem claim_C5_witness :
    recordStep true (fun _ => HandlerOut.ok (strL ("ok")))
      (strL ("\x7b\"id\": 42, \"msg_type\": \"task\", \"content\": \"hello\"\x7d")) =
      .emit [.jobj [(kId, .jnum 42), (kTarget, .jstr vShell),
                    (kMsgType, .jstr vResponse), (kContent, .jstr (strL ("ok")))]] :=
  claim_C5 true (fun _ => HandlerOut.ok (strL ("ok")))
    (strL ("\x7b\"id\": 42, \"msg_type\": \"task\", \"content\": \"hello\"\x7d"))
    [(strL ("id"), .jnum 42), (strL ("msg_type"), .jstr (strL ("task"))),
     (strL ("content"), .jstr (strL ("hello")))]
    (strL ("hello")) (strL ("ok")) 42 rfl rfl rfl rfl rfl rfl rfl rfl rfl

/-- C6 (amended): for a Handler result of the exact form `TAG{...}` ending at
its closing brace, the outbound `msg_type` is the tag's value and the content
is the result with the tag prefix stripped, the tags checked in the priority
order pipeline-diagram, ML-dashboard, plot, chess (each later tag needing the
earlier tags absent), and a result carrying no tag is a plain `"response"`.
(Unamended, the claim is false: a chess-tagged result with no brace group
falls through to `"response"` with nothing stripped, because the
`startswith` fallback chain has no chess case — see the counterexample.) -/
theorem claim_C6 (m1 m2 m3 m4 r2 r3 r4 u : List Char)
    (hr2 : r2 = tagML ++ lbrace :: (m2 ++ [rbrace]))
    (h2a : occursIn tagPIPE r2 = false)
    (hr3 : r3 = tagPLOT ++ lbrace :: (m3 ++ [rbrace]))
    (h3a : occursIn tagPIPE r3 = false) (h3b : occursIn tagML r3 = false)
    (hr4 : r4 = tagCHESS ++ lbrace :: (m4 ++ [rbrace]))
    (h4a : occursIn tagPIPE r4 = false) (h4b : occursIn tagML r4 = false)
    (h4c : occursIn tagPLOT r4 = false)
    (hu1 : occursIn tagPIPE u = false) (hu2 : occursIn tagML u = false)
    (hu3 : occursIn tagPLOT u = false) (hu4 : occursIn tagCHESS u = false) :
    classify (tagPIPE ++ lbrace :: (m1 ++ [rbrace])) =
      (strL ("gui_pipeline_diagram"), lbrace :: (m1 ++ [rbrace])) ∧
    classify r2 = (strL ("gui_ml_dashboard"), lbrace :: (m2 ++ [rbrace])) ∧
    classify r3 = (strL ("gui_plot"), lbrace :: (m3 ++ [rbrace])) ∧
    classify r4 = (strL ("gui_chess"), lbrace :: (m4 ++ [rbrace])) ∧
    classify u = (vResponse, u) :=
  ⟨classify_pipe m1, classify_ml m2 r2 hr2 h2a, classify_plot m3 r3 hr3 h3a h3b,
   classify_chess m4 r4 hr4 h4a h4b h4c, classify_untagged u hu1 hu2 hu3 hu4⟩

/-- C6 witness: each tag with an empty brace group classifies to its
`msg_type` with the prefix stripped, and an untagged `"ok"` stays a plain
response. -/
theorem claim_C6_witness :
    classify (tagPIPE ++ lbrace :: ([] ++ [rbrace])) =
      (strL ("gui_pipeline_diagram"), lbrace :: (([] : List Char) ++ [rbrace])) ∧
    classify (tagML ++ lbrace :: ([] ++ [rbrace])) =
      (strL ("gui_ml_dashboard"), lbrace :: (([] : List Char) ++ [rbrace])) ∧
    classify (tagPLOT ++ lbrace :: ([] ++ [rbrace])) =
      (strL ("gui_plot"), lbrace :: (([] : List Char) ++ [rbrace])) ∧
    classify (tagCHESS ++ lbrace :: ([] ++ [rbrace])) =
      (strL ("gui_chess"), lbrace :: (([] : List Char) ++ [rbrace])) ∧
    classify (strL ("ok")) = (vResponse, strL ("ok")) :=
  claim_C6 [] [] [] [] (tagML ++ lbrace :: ([] ++ [rbrace]))
    (tagPLOT ++ lbrace :: ([] ++ [rbrace])) (tagCHESS ++ lbrace :: ([] ++ [rbrace]))
    (strL ("ok"))
    rfl rfl rfl rfl rfl rfl rfl rfl rfl rfl rfl rfl rfl

/-- C6 counterexample: `"GUI_CHESS:hello"` carries a known GUI tag, yet the
classification returns `msg_type "response"` with the tag NOT stripped — the
original claim fails for the chess tag without a brace group. -/
theorem claim_C6_counterexample :
    classify (strL ("GUI_CHESS:hello")) = (vResponse, strL ("GUI_CHESS:hello")) := rfl

/-- C7: in the CONNECTED state, `Disconnected` makes the loop sleep the fixed
interval and re-check the device path; with the path present it resumes with
the pending buffer unchanged, with the path gone it terminates, and
`WouldBlock` never terminates the loop. -/
theorem claim_C7 (st : BridgeSt) :
    readStep st (.disconnected true) = (st, [.slept 2000, .checkedPath]) ∧
    (readStep st (.disconnected true)).1.buf = st.buf ∧
    (readStep st (.disconnected true)).1.closed = st.closed ∧
    readStep st (.disconnected false) =
      ({ st with closed := true }, [.slept 2000, .checkedPath, .exited]) ∧
    readStep st .wouldBlock = (st, []) ∧
    (readStep st .wouldBlock).1.closed = st.closed :=
  ⟨rfl, rfl, rfl, rfl, rfl, rfl⟩

/-- C8: the codec round-trips — encoding is a pure total function producing
the JSON object text plus a trailing newline, the framer recovers exactly
that object text as one record, `json.loads` parses it back to the
envelope's object, and every field of the envelope is recovered unchanged
from the parsed object. -/
theorem claim_C8 (e : Envelope) :
    encodeEnv e = encodeEnvBody e ++ ['\n'] ∧
    drain (encodeEnv e) = ([encodeEnvBody e], []) ∧
    jsonLoads (encodeEnvBody e) = some (envObj e) ∧
    envObj e = .jobj [(kId, .jnum e.id), (kTarget, .jstr e.target),
                      (kMsgType, .jstr e.msgType), (kContent, .jstr e.content)] ∧
    dictGet [(kId, .jnum e.id), (kTarget, .jstr e.target),
             (kMsgType, .jstr e.msgType), (kContent, .jstr e.content)] kId =
      some (.jnum e.id) ∧
    dictGet [(kId, .jnum e.id), (kTarget, .jstr e.target),
             (kMsgType, .jstr e.msgType), (kContent, .jstr e.content)] kTarget =
      some (.jstr e.target) ∧
    dictGet [(kId, .jnum e.id), (kTarget, .jstr e.target),
             (kMsgType, .jstr e.msgType), (kContent, .jstr e.content)] kMsgType =
      some (.jstr e.msgType) ∧
    dictGet [(kId, .jnum e.id), (kTarget, .jstr e.target),
             (kMsgType, .jstr e.msgType), (kContent, .jstr e.content)] kContent =
      some (.jstr e.content) :=
  ⟨rfl, drain_encodeEnv e, jsonLoads_encodeEnvBody e, rfl, rfl, rfl, rfl, rfl⟩

/-- C9: when a chunk's three write attempts all block, the paced writer
sleeps 10 ms after each blocked attempt, falls through silently (only an
exhaustion event, no write and no error), and proceeds with the remaining
chunks of the same send. -/
theorem claim_C9 (oracle : Nat → Nat → Bool) (i : Nat) (ch : List Char)
    (rest : List (List Char))
    (h0 : oracle i 0 = false) (h1 : oracle i 1 = false) (h2 : oracle i 2 = false) :
    sendLoop oracle i (ch :: rest) =
      [SendEv.slept 10, SendEv.slept 10, SendEv.slept 10, SendEv.exhausted ch,
       SendEv.slept 20] ++ sendLoop oracle (i + 1) rest := by
  rw [sendLoop_cons, sendChunk_exhaust (oracle i) ch h0 h1 h2]

/-- C9 witness: with a channel that always blocks, the first chunk's retries
exhaust and the send still proceeds to the remaining chunk. -/
theorem claim_C9_witness :
    sendLoop (fun _ _ => false) 0 [strL ("abc"), strL ("xyz")] =
      [SendEv.slept 10, SendEv.slept 10, SendEv.slept 10,
       SendEv.exhausted (strL ("abc")), SendEv.slept 20] ++
      sendLoop (fun _ _ => false) 1 [strL ("xyz")] :=
  claim_C9 (fun _ _ => false) 0 (strL ("abc")) [strL ("xyz")] rfl rfl rfl

/-- C10: every reply the record loop emits is an object whose `target` is
`"shell"`, and the step function never inspects the request's `target`: two
records whose parsed objects agree on `id`, `msg_type` and `content` but may
differ arbitrarily on `target` produce the same outcome. -/
theorem claim_C10 (g : Bool) (hd : List Char → HandlerOut) (rs : List (List Char))
    (v : JsonVal) (hv : v ∈ (runRecords g hd rs).sent)
    (r1 r2 : List Char) (kvs1 kvs2 : List (List Char × JsonVal))
    (hj1 : jsonLoads r1 = some (.jobj kvs1)) (hj2 : jsonLoads r2 = some (.jobj kvs2))
    (hid : dictGet kvs1 kId = dictGet kvs2 kId)
    (hmt : dictGet kvs1 kMsgType = dictGet kvs2 kMsgType)
    (hct : dictGet kvs1 kContent = dictGet kvs2 kContent) :
    (∃ kvs, v = .jobj kvs ∧ dictGet kvs kTarget = some (.jstr vShell)) ∧
    recordStep g hd r1 = recordStep g hd r2 := by
  constructor
  · obtain ⟨i, mt, ct, hvv⟩ := runRecords_sent_shape g hd rs v hv
    obtain ⟨kvs, hk1, hk2⟩ := mkReply_target i mt ct
    exact ⟨kvs, hvv.trans hk1, hk2⟩
  · exact recordStep_ignores_target g hd r1 r2 kvs1 kvs2 hj1 hj2 hid hmt hct

/-- C10 witness: the reply emitted for a task whose request `target` is
`"kernel"` carries `target "shell"`, and changing the request's target from
`"kernel"` to `"gui"` leaves the step outcome identical. -/
theorem claim_C10_witness :
    (∃ kvs, mkReply (some (.jnum 5)) vResponse (strL ("ok")) = .jobj kvs ∧
      dictGet kvs kTarget = some (.jstr vShell)) ∧
    recordStep true (fun _ => HandlerOut.ok (strL ("ok")))
      (strL ("\x7b\"id\": 5, \"target\": \"kernel\", \"msg_type\": \"task\", \"content\": \"hello\"\x7d")) =
    recordStep true (fun _ => HandlerOut.ok (strL ("ok")))
      (strL ("\x7b\"id\": 5, \"target\": \"gui\", \"msg_type\": \"task\", \"content\": \"hello\"\x7d")) :=
  claim_C10 true (fun _ => HandlerOut.ok (strL ("ok")))
    [strL ("\x7b\"id\": 5, \"target\": \"kernel\", \"msg_type\": \"task\", \"content\": \"hello\"\x7d")]
    (mkReply (some (.jnum 5)) vResponse (strL ("ok")))
    (List.mem_singleton.mpr rfl)
    (strL ("\x7b\"id\": 5, \"target\": \"kernel\", \"msg_type\": \"task\", \"content\": \"hello\"\x7d"))
    (strL ("\x7b\"id\": 5, \"target\": \"gui\", \"msg_type\": \"task\", \"content\": \"hello\"\x7d"))
    [(strL ("id"), .jnum 5), (strL ("target"), .jstr (strL ("kernel"))),
     (strL ("msg_type"), .jstr (strL ("task"))), (strL ("content"), .jstr (strL ("hello")))]
    [(strL ("id"), .jnum 5), (strL ("target"), .jstr (strL ("gui"))),
     (strL ("msg_type"), .jstr (strL ("task"))), (strL ("content"), .jstr (strL ("hello")))]
    rfl rfl rfl rfl rfl
